import Mathlib

/-!
# XENGPUMiner: the runtime control loop of `argon2-gpu-bench/main.cpp`

A shallow embedding of `src/gpuMiner/src/argon2-gpu-bench/main.cpp`:

* the shared `difficulty` value, the block that re-reads `difficulty.txt`
  (`read_difficulty_periodically`, and the same block at the start of `main`);
* `signalHandler`;
* the automatic batch sizing of the benchmark loop (OpenCL and CUDA branches);
* the benchmark loop itself (`for (int i = 0; i < 200000; i++)`).

Conventions.

* `int` values are `Int`; the narrowing `size_t -> int` is `toInt32`, and the
  signed decrement in `signalHandler` wraps through `toInt32`.
* A `double` is represented by its rational value.  Every conversion to `double`, the
  literal `1.01` and every division round to the nearest `double` (53 significant
  bits, ties to even) through `roundToDouble`.  The exponent range of the format is
  not represented: for a `size_t` `freeMemory` and a non-zero `int` `mcost` every
  value that occurs is zero or lies between `2^-42` and `2^64` in size.  A conversion
  `double -> int` truncates toward zero and has no result (`none`) when the
  truncated value is not an `int`, or when the `double` is not finite.
* Each critical section under `mtx` is one atomic step; the foreground loop sees
  the other threads through what it observes in each iteration (`Boundary`).
* Output, writes to the two globals, device memory probes and benchmark runs are
  recorded as a list of `Event`s.
-/

namespace XenGPUMiner


/-! ## Machine integers and `double` -/

/-- Smallest value of the 32-bit `int`. -/
def INT_MIN : Int := -2147483648

/-- Largest value of the 32-bit `int`. -/
def INT_MAX : Int := 2147483647

/-- Narrowing to the 32-bit `int`: reduction modulo `2^32` into the signed range. -/
def toInt32 (x : Int) : Int := (x + 2147483648) % 4294967296 - 2147483648

/-- Conversion of an `int` operand to the unsigned 64-bit type of the other operand
(the usual arithmetic conversions in `memorySize / mcost`). -/
def toUInt64 (x : Int) : Nat := (x % 18446744073709551616).toNat

/-- Rounding of a rational to the nearest integer, a tie going to the even one. -/
def roundNearestEven (q : ℚ) : ℤ :=
  if q - ⌊q⌋ < 1 / 2 then ⌊q⌋
  else if 1 / 2 < q - ⌊q⌋ then ⌊q⌋ + 1
  else if ⌊q⌋ % 2 = 0 then ⌊q⌋ else ⌊q⌋ + 1

/-- The unit in the last place of the binade of a positive `x`: with
`2^e <= x < 2^(e+1)` it is `2^(e-52)`, the spacing of the `double`s in that binade. -/
def ulp (x : ℚ) : ℚ := (2 : ℚ) ^ (Int.log 2 x - 52)

/-- Rounding to the nearest `double` (IEEE 754 binary64: 53 significant bits, round to
nearest, ties to even).  A `double` is represented by its rational value. -/
def roundToDouble (x : ℚ) : ℚ :=
  if x = 0 then 0
  else if 0 < x then roundNearestEven (x / ulp x) * ulp x
  else -(roundNearestEven (-x / ulp (-x)) * ulp (-x))

/-- The literal `1.01`: the `double` nearest to `101/100`, which is
`4548635623644201 / 2^52`. -/
def ONE_POINT_01 : ℚ := roundToDouble (101 / 100)

/-- Conversion of a `size_t` or `cl_ulong` to `double`. -/
def sizeToDouble (n : ℕ) : ℚ := roundToDouble n

/-- Conversion of an `int` to `double`. -/
def intToDouble (z : ℤ) : ℚ := roundToDouble z

/-- Division of two `double`s, the divisor not zero: the exact quotient, rounded. -/
def divDouble (a b : ℚ) : ℚ := roundToDouble (a / b)

/-- Truncation toward zero of a finite `double` value. -/
def truncate (q : ℚ) : Int := if 0 ≤ q then ⌊q⌋ else ⌈q⌉

/-- Conversion `double -> int`: the truncated value when it is an `int`, no result otherwise. -/
def doubleToInt (q : ℚ) : Option Int :=
  if INT_MIN ≤ truncate q ∧ truncate q ≤ INT_MAX then some (truncate q) else none

/-! ## Command line arguments and build configuration -/

/-- The `Arguments` structure (lines 24-39), with the defaults of the source. -/
structure Arguments where
  mode : String := "cuda"
  deviceIndex : Nat := 0
  outputType : String := "ns"
  outputMode : String := "verbose"
  batchSize : Nat := 0
  kernelType : String := "oneshot"
  precomputeRefs : Bool := false
  showHelp : Bool := false
  listDevices : Bool := false
  deriving DecidableEq, Repr

/-- The preprocessor switches `HAVE_CUDA` and `HAVE_OPENCL`. -/
structure Build where
  HAVE_CUDA : Bool
  HAVE_OPENCL : Bool
  deriving DecidableEq, Repr

/-- What the device reports when probed: `freeMemory`, `totalMemory` from
`cudaMemGetInfo`, and `memorySize` from `clGetDeviceInfo(CL_DEVICE_GLOBAL_MEM_SIZE)`. -/
structure DeviceMemory where
  freeMemory : Nat
  totalMemory : Nat
  memorySize : Nat
  deriving DecidableEq, Repr

/-- The arguments handed to the `BenchmarkDirector` constructor (lines 234-237), in
order: `argon2::ARGON2_ID` and `argon2::ARGON2_VERSION_13` are fixed, then
`1, mcost, 1, batchSize, false, args.precomputeRefs, 20000000, args.outputMode,
args.outputType`.  The class is declared in `benchmark.h`; the fields record the
values passed, `memoryCost`, `parallelism`, `iterationsParam` and `batchSize`
being the spec's names for the fourth to seventh of them. -/
structure BenchmarkDirector where
  iterationsParam : Int
  memoryCost : Int
  parallelism : Int
  batchSize : Int
  bySegment : Bool
  precomputeRefs : Bool
  samples : Nat
  outputMode : String
  outputType : String
  deriving DecidableEq, Repr

/-- Observable effects: lines written to `std::cout` / `std::cerr` / `printf`, writes
to the two globals, device memory probes and benchmark runs. -/
inductive Event where
  /-- Write to `difficulty`: `difficulty = new_difficulty` (lines 104, 175) and `difficulty = difficulty - 1` (line 125). -/
  | storeDifficulty (d : Int)
  /-- The change notification: `"Updated difficulty to "` on `std::cout`. -/
  | coutUpdatedDifficulty (d : Int)
  /-- The line `"The local difficult.txt file was not recognized"` on `std::cerr`. -/
  | cerrFileNotRecognized
  /-- The line `"Interrupt signal (" << signum << ") received."` on `std::cout`. -/
  | coutInterruptReceived (signum : Int)
  /-- Write to `running`: `running = false` (line 122). -/
  | storeRunning (b : Bool)
  /-- The line `"change difficulty to " << difficulty << ", waiting process end"` on `std::cout`. -/
  | coutChangeDifficulty (d : Int)
  /-- The line `"Current difficulty: "` on `std::cout`. -/
  | coutCurrentDifficulty (d : Int)
  /-- The OpenCL memory probe `clGetDeviceInfo(device, CL_DEVICE_GLOBAL_MEM_SIZE, ...)`. -/
  | clGetDeviceInfo
  /-- The CUDA memory probe `cudaMemGetInfo(&freeMemory, &totalMemory)`. -/
  | cudaMemGetInfo
  /-- The line `"XenGPUMiner is not built with Opencl"` on `std::cerr`. -/
  | cerrNotBuiltOpenCL
  /-- The line `"XenGPUMiner is not built with CUDA"` on `std::cerr`. -/
  | cerrNotBuiltCuda
  /-- The call `printf("using batchsize:%d\n", batchSize)`. -/
  | printfBatchSize (b : Int)
  /-- The run `OpenCLExecutive exec(...); exec.runBenchmark(director)`. -/
  | runBenchmarkOpenCL (director : BenchmarkDirector)
  /-- The run `CudaExecutive exec(...); exec.runBenchmark(director)`. -/
  | runBenchmarkCuda (director : BenchmarkDirector)
  deriving DecidableEq, Repr

/-- Whether an event is a device memory probe. -/
def Event.isProbe : Event → Bool
  | .clGetDeviceInfo => true
  | .cudaMemGetInfo => true
  | _ => false

/-- Whether an event is the change notification of the difficulty update. -/
def Event.isNotification : Event → Bool
  | .coutUpdatedDifficulty _ => true
  | _ => false

/-- Whether an event is a write to the global `difficulty`. -/
def Event.isDifficultyWrite : Event → Bool
  | .storeDifficulty _ => true
  | _ => false

/-- Whether an event is a line on `std::cerr`. -/
def Event.isDiagnostic : Event → Bool
  | .cerrFileNotRecognized => true
  | .cerrNotBuiltOpenCL => true
  | .cerrNotBuiltCuda => true
  | _ => false

/-! ## The difficulty value and its poller -/

/-- The initial value of the global `difficulty` (line 94, and again line 132). -/
def initialDifficulty : Int := 1727

/-- What one attempt to read `difficulty.txt` finds: `file.is_open()` is false; the
file is open and `file >> new_difficulty` fails; or it yields an `int`. -/
inductive FileRead where
  | notOpen
  | noParse
  | parsed (new_difficulty : Int)
  deriving DecidableEq, Repr

/-- The comparison and assignment under the lock (lines 102-106 and 173-177). -/
def updateDifficulty (difficulty new_difficulty : Int) : Int × List Event :=
  if difficulty ≠ new_difficulty then
    (new_difficulty, [.storeDifficulty new_difficulty, .coutUpdatedDifficulty new_difficulty])
  else
    (difficulty, [])

/-- One read of `difficulty.txt` (lines 98-111 and 169-182). -/
def readDifficultyFile (difficulty : Int) : FileRead → Int × List Event
  | .notOpen => (difficulty, [.cerrFileNotRecognized])
  | .noParse => (difficulty, [])
  | .parsed new_difficulty => updateDifficulty difficulty new_difficulty

/-- The loop of `read_difficulty_periodically` run over a finite sequence of poll
ticks (the source loop is `while (true)`, one tick every 10 seconds): the stored
difficulty and the output after the last tick. -/
def read_difficulty_periodically : List FileRead → Int → Int × List Event
  | [], difficulty => (difficulty, [])
  | f :: ticks, difficulty =>
    let r := readDifficultyFile difficulty f
    let rest := read_difficulty_periodically ticks r.1
    (rest.1, r.2 ++ rest.2)

/-! ## The interrupt handler -/

/-- The two globals shared between the threads. -/
structure Globals where
  running : Bool
  difficulty : Int
  deriving DecidableEq, Repr

/-- The globals when `main` has set `difficulty = 1727` (`running` is initialised `true`). -/
def initialGlobals : Globals := ⟨true, initialDifficulty⟩

/-- The handler `signalHandler(int signum)` (lines 120-128). -/
def signalHandler (signum : Int) (g : Globals) : Globals × List Event :=
  let difficulty := toInt32 (g.difficulty - 1)
  (⟨false, difficulty⟩,
   [.coutInterruptReceived signum, .storeRunning false,
    .storeDifficulty difficulty, .coutChangeDifficulty difficulty])

/-- One atomic step of a thread other than the foreground loop: a poll tick of
`read_difficulty_periodically`, or a delivery of the interrupt. -/
inductive Step where
  | poll (f : FileRead)
  | interrupt (signum : Int)
  deriving DecidableEq, Repr

/-- The effect of one step on the globals. -/
def step (g : Globals) : Step → Globals
  | .poll f => { g with difficulty := (readDifficultyFile g.difficulty f).1 }
  | .interrupt signum => (signalHandler signum g).1

/-- The globals after a finite interleaving of steps. -/
def run (g : Globals) (steps : List Step) : Globals := steps.foldl step g

/-! ## Batch sizing -/

/-- The `double` to which `memorySize / mcost / 1.01 / 1024` evaluates (line 216), `k`
being the unsigned 64-bit quotient `memorySize / mcost`: `k` is converted to `double`,
divided by the `double` 1.01 and then by 1024 (the `int` 1024 converts exactly). -/
def openclQuotient (k : ℕ) : ℚ :=
  divDouble (divDouble (sizeToDouble k) ONE_POINT_01) 1024

/-- The `double` to which `freeMemory / 1.01 / mcost / 1024` evaluates (line 226), for
`mcost` not zero: `freeMemory` is converted to `double` and divided in turn by the
`double` 1.01, by `mcost` converted to `double`, and by 1024. -/
def cudaQuotient (freeMemory : ℕ) (mcost : ℤ) : ℚ :=
  divDouble (divDouble (divDouble (sizeToDouble freeMemory) ONE_POINT_01)
    (intToDouble mcost)) 1024

/-- The OpenCL assignment `batchSize = memorySize / mcost / 1.01 / 1024` (line 216):
`memorySize / mcost` is an unsigned 64-bit division, which has no result for a zero
divisor; the rest is `double`, converted to `int`. -/
def openclBatchSize (memorySize : Nat) (mcost : Int) : Option Int :=
  if toUInt64 mcost = 0 then none
  else doubleToInt (openclQuotient (memorySize / toUInt64 mcost))

/-- The CUDA assignment `batchSize = freeMemory / 1.01 / mcost / 1024` (line 226), all
in `double` and converted to `int`; dividing by a zero `mcost` gives a value that is
not finite, whose conversion has no result. -/
def cudaBatchSize (freeMemory : Nat) (mcost : Int) : Option Int :=
  if mcost = 0 then none
  else doubleToInt (cudaQuotient freeMemory mcost)

/-- Lines 195-232: `int batchSize = args.batchSize;` and, when `args.batchSize == 0`,
the automatic sizing.  The result is the `batchSize` in force after the block and
the events of the block; `none` when a conversion or division has no result. -/
def resolveBatchSize (build : Build) (args : Arguments) (mcost : Int)
    (mem : DeviceMemory) : Option (Int × List Event) :=
  let batchSize := toInt32 args.batchSize
  if args.batchSize = 0 then
    if args.mode = "opencl" then
      if build.HAVE_OPENCL then
        (openclBatchSize mem.memorySize mcost).map fun b =>
          (b, [.clGetDeviceInfo, .printfBatchSize b])
      else
        some (batchSize, [.cerrNotBuiltOpenCL, .printfBatchSize batchSize])
    else if args.mode = "cuda" then
      if build.HAVE_CUDA then
        (cudaBatchSize mem.freeMemory mcost).map fun b =>
          (b, [.cudaMemGetInfo, .printfBatchSize b])
      else
        some (batchSize, [.cerrNotBuiltCuda, .printfBatchSize batchSize])
    else
      some (batchSize, [.printfBatchSize batchSize])
  else
    some (batchSize, [])

/-- Lines 238-252: the dispatch of the director to the executive of the mode. -/
def dispatch (build : Build) (args : Arguments) (director : BenchmarkDirector) : List Event :=
  if args.mode = "opencl" then
    if build.HAVE_OPENCL then [.runBenchmarkOpenCL director] else [.cerrNotBuiltOpenCL]
  else if args.mode = "cuda" then
    if build.HAVE_CUDA then [.runBenchmarkCuda director] else [.cerrNotBuiltCuda]
  else []

/-! ## The benchmark loop -/

/-- What the foreground thread observes in iteration `i`: the flag `running` at the
top of the iteration (line 188), `difficulty` when it is printed under the lock
(line 192) and when it is copied into `mcost` (line 194), and the device memory. -/
structure Boundary where
  running : Bool
  printed : Int
  difficulty : Int
  mem : DeviceMemory
  deriving DecidableEq, Repr

/-- The construction `BenchmarkDirector director(argv[0], argon2::ARGON2_ID,
argon2::ARGON2_VERSION_13, 1, mcost, 1, batchSize, false, args.precomputeRefs, 20000000,
args.outputMode, args.outputType)` (lines 234-237). -/
def makeDirector (args : Arguments) (mcost batchSize : Int) : BenchmarkDirector :=
  ⟨1, mcost, 1, batchSize, false, args.precomputeRefs, 20000000, args.outputMode,
    args.outputType⟩

/-- The body of one iteration after the `running` check (lines 190-252): the director
built and the events, `none` when the sizing has no result. -/
def iteration (build : Build) (args : Arguments) (b : Boundary) :
    Option (BenchmarkDirector × List Event) :=
  let mcost := b.difficulty
  (resolveBatchSize build args mcost b.mem).map fun r =>
    let director := makeDirector args mcost r.1
    (director, [.coutCurrentDifficulty b.printed] ++ r.2 ++ dispatch build args director)

/-- The iteration ceiling of the benchmark loop. -/
def maxIterations : Nat := 200000

/-- The loop `for (int i = 0; i < 200000; i++) { if (!running) break; body }` from
index `i` on: the results of the bodies that are run, in order. -/
def benchmarkLoopFrom {α : Type} (running : Nat → Bool) (body : Nat → α) (i : Nat) : List α :=
  if i < maxIterations then
    if !running i then []
    else body i :: benchmarkLoopFrom running body (i + 1)
  else []
termination_by maxIterations - i

/-- The benchmark loop of `main` (lines 187-253). -/
def benchmarkLoop (build : Build) (args : Arguments) (obs : Nat → Boundary) :
    List (Option (BenchmarkDirector × List Event)) :=
  benchmarkLoopFrom (fun i => (obs i).running) (fun i => iteration build args (obs i)) 0

/-! ## Notions used to state the properties -/

/-- The integer a poll tick parses, if it succeeds. -/
def FileRead.value? : FileRead → Option Int
  | .parsed new_difficulty => some new_difficulty
  | _ => none

/-- The last successfully parsed integer of a sequence of poll ticks, or the initial
value when no tick succeeded. -/
def lastParsed (ticks : List FileRead) (initial : Int) : Int :=
  ((ticks.filterMap FileRead.value?).getLast?).getD initial

/-- Whether a step is a delivery of the interrupt. -/
def Step.isInterrupt : Step → Bool
  | .interrupt _ => true
  | _ => false

/-- Whether a step is a poll tick that parses an integer. -/
def Step.isParsed : Step → Bool
  | .poll (.parsed _) => true
  | _ => false

/-- The number of interrupt deliveries in a sequence of steps. -/
def interrupts (steps : List Step) : Nat := steps.countP Step.isInterrupt

/-! ## Rounding to `double` -/

theorem roundNearestEven_sub_le (q : ℚ) : |(roundNearestEven q : ℚ) - q| ≤ 1 / 2 := by
  have h1 := Int.floor_le q
  have h2 := Int.lt_floor_add_one q
  unfold roundNearestEven
  split_ifs with ha hb hc
  · rw [abs_le]; constructor <;> linarith
  · rw [abs_le]; push_cast; constructor <;> linarith
  · rw [abs_le]; constructor <;> linarith
  · rw [abs_le]; push_cast; constructor <;> linarith

theorem roundNearestEven_eq_of_abs_lt (q : ℚ) (Z : ℤ) (h : |q - Z| < 1 / 2) :
    roundNearestEven q = Z := by
  rw [abs_lt] at h
  obtain ⟨h1, h2⟩ := h
  rcases le_or_lt (Z : ℚ) q with hge | hlt
  · have hf : ⌊q⌋ = Z := by
      rw [Int.floor_eq_iff]; constructor <;> linarith
    unfold roundNearestEven
    rw [hf, if_pos (by linarith)]
  · have hf : ⌊q⌋ = Z - 1 := by
      rw [Int.floor_eq_iff]; push_cast; constructor <;> linarith
    unfold roundNearestEven
    rw [hf, if_neg (by push_cast; linarith), if_pos (by push_cast; linarith)]
    ring

theorem ulp_pos (x : ℚ) : 0 < ulp x := by
  unfold ulp; positivity

theorem ulp_eq_of_mem (x : ℚ) (e : ℤ) (h1 : (2 : ℚ) ^ e ≤ x) (h2 : x < (2 : ℚ) ^ (e + 1)) :
    ulp x = (2 : ℚ) ^ (e - 52) := by
  have hx : 0 < x := lt_of_lt_of_le (by positivity) h1
  have hlog : Int.log 2 x = e := by
    apply le_antisymm
    · have := (Int.lt_zpow_iff_log_lt (b := 2) (by norm_num) hx (x := e + 1)).mp
        (by exact_mod_cast h2)
      omega
    · exact (Int.zpow_le_iff_le_log (b := 2) (by norm_num) hx).mp (by exact_mod_cast h1)
  unfold ulp
  rw [hlog]

theorem ulp_mul_le (x : ℚ) (hx : 0 < x) : (2 : ℚ) ^ (52 : ℕ) * ulp x ≤ x := by
  have h := Int.zpow_log_le_self (b := 2) (by norm_num) hx
  have : (2 : ℚ) ^ (52 : ℕ) * ulp x = (2 : ℚ) ^ (Int.log 2 x) := by
    unfold ulp
    rw [← zpow_natCast, ← zpow_add₀ (by norm_num)]
    congr 1
    push_cast
    ring
  rw [this]
  exact_mod_cast h

theorem lt_ulp_mul (x : ℚ) : x < (2 : ℚ) ^ (53 : ℕ) * ulp x := by
  have h := Int.lt_zpow_succ_log_self (b := 2) (by norm_num) x
  have : (2 : ℚ) ^ (53 : ℕ) * ulp x = (2 : ℚ) ^ (Int.log 2 x + 1) := by
    unfold ulp
    rw [← zpow_natCast, ← zpow_add₀ (by norm_num)]
    congr 1
    push_cast
    ring
  rw [this]
  exact_mod_cast h

theorem roundToDouble_of_pos (x : ℚ) (hx : 0 < x) :
    roundToDouble x = roundNearestEven (x / ulp x) * ulp x := by
  unfold roundToDouble
  rw [if_neg hx.ne', if_pos hx]

theorem roundToDouble_zero : roundToDouble 0 = 0 := by
  simp [roundToDouble]

/-- Evaluation of a rounding: in the binade `2^e <= x < 2^(e+1)` the result is
`Z * 2^(e-52)` for the integer `Z` within `1/2` of `x / 2^(e-52)`. -/
theorem roundToDouble_eq (x : ℚ) (e Z : ℤ) (h1 : (2 : ℚ) ^ e ≤ x) (h2 : x < (2 : ℚ) ^ (e + 1))
    (h3 : |x / (2 : ℚ) ^ (e - 52) - Z| < 1 / 2) :
    roundToDouble x = Z * (2 : ℚ) ^ (e - 52) := by
  have hx : 0 < x := lt_of_lt_of_le (by positivity) h1
  rw [roundToDouble_of_pos x hx, ulp_eq_of_mem x e h1 h2,
    roundNearestEven_eq_of_abs_lt _ Z h3]

/-- A tie goes to the even neighbour. -/
theorem roundNearestEven_of_tie_even (q : ℚ) (Z : ℤ) (h : q = Z + 1 / 2) (hZ : Z % 2 = 0) :
    roundNearestEven q = Z := by
  have hf : ⌊q⌋ = Z := by
    rw [Int.floor_eq_iff]; constructor <;> linarith
  unfold roundNearestEven
  rw [hf, if_neg (by rw [h]; norm_num), if_neg (by rw [h]; norm_num), if_pos hZ]

/-- Evaluation of a rounding at a tie: the even neighbour is taken. -/
theorem roundToDouble_eq_of_tie_even (x : ℚ) (e Z : ℤ) (h1 : (2 : ℚ) ^ e ≤ x)
    (h2 : x < (2 : ℚ) ^ (e + 1)) (h3 : x / (2 : ℚ) ^ (e - 52) = Z + 1 / 2)
    (hZ : Z % 2 = 0) : roundToDouble x = Z * (2 : ℚ) ^ (e - 52) := by
  have hx : 0 < x := lt_of_lt_of_le (by positivity) h1
  rw [roundToDouble_of_pos x hx, ulp_eq_of_mem x e h1 h2,
    roundNearestEven_of_tie_even _ Z h3 hZ]

/-- The relative error of a rounding is at most `2^-53`. -/
theorem roundToDouble_sub_le (x : ℚ) (hx : 0 < x) :
    |roundToDouble x - x| ≤ x / 2 ^ (53 : ℕ) := by
  have hu := ulp_pos x
  have h1 := roundNearestEven_sub_le (x / ulp x)
  have h2 := ulp_mul_le x hx
  rw [roundToDouble_of_pos x hx]
  have : (roundNearestEven (x / ulp x) : ℚ) * ulp x - x
      = ((roundNearestEven (x / ulp x) : ℚ) - x / ulp x) * ulp x := by
    field_simp
  rw [this, abs_mul, abs_of_pos hu]
  calc |(roundNearestEven (x / ulp x) : ℚ) - x / ulp x| * ulp x
      ≤ 1 / 2 * ulp x := by gcongr
    _ ≤ x / 2 ^ (53 : ℕ) := by
      rw [le_div_iff₀ (by positivity)]
      nlinarith

theorem le_roundToDouble (x : ℚ) (hx : 0 ≤ x) :
    (1 - 1 / 2 ^ (53 : ℕ)) * x ≤ roundToDouble x := by
  rcases hx.eq_or_lt with h | h
  · rw [← h, roundToDouble_zero]; simp
  · have := roundToDouble_sub_le x h
    rw [abs_le] at this
    linarith [this.1]

theorem roundToDouble_le (x : ℚ) (hx : 0 ≤ x) :
    roundToDouble x ≤ (1 + 1 / 2 ^ (53 : ℕ)) * x := by
  rcases hx.eq_or_lt with h | h
  · rw [← h, roundToDouble_zero]; simp
  · have := roundToDouble_sub_le x h
    rw [abs_le] at this
    linarith [this.2]

theorem roundToDouble_nonneg (x : ℚ) (hx : 0 ≤ x) : 0 ≤ roundToDouble x :=
  le_trans (mul_nonneg (by norm_num) hx) (le_roundToDouble x hx)

/-- A value just below a natural number `N < 2^53` rounds to `N`. -/
theorem roundToDouble_eq_nat (N : ℕ) (x : ℚ) (hN : 0 < N) (hN2 : N < 2 ^ 53)
    (h1 : (N : ℚ) * (1 - 1 / 2 ^ (55 : ℕ)) ≤ x) (h2 : x ≤ N) : roundToDouble x = N := by
  have hNq : (0 : ℚ) < N := by exact_mod_cast hN
  have hx : 0 < x := lt_of_lt_of_le (by positivity) h1
  have hu := ulp_pos x
  have hlo := ulp_mul_le x hx
  have hhi := lt_ulp_mul x
  -- the exponent is at most 52, so 1 / ulp is a natural power of two
  have hlog : Int.log 2 x < 53 := by
    apply (Int.lt_zpow_iff_log_lt (b := 2) (by norm_num) hx).mp
    have : x < ((2 : ℕ) : ℚ) ^ (53 : ℕ) := lt_of_le_of_lt h2 (by exact_mod_cast hN2)
    exact_mod_cast this
  obtain ⟨j, hj⟩ := Int.eq_ofNat_of_zero_le (by omega : 0 ≤ 52 - Int.log 2 x)
  have hulp : ulp x = ((2 : ℚ) ^ j)⁻¹ := by
    unfold ulp
    rw [← zpow_natCast, ← zpow_neg]
    congr 1
    omega
  have hpow : (0 : ℚ) < (2 : ℚ) ^ j := by positivity
  rw [roundToDouble_of_pos x hx]
  have hZ : roundNearestEven (x / ulp x) = ((N * 2 ^ j : ℕ) : ℤ) := by
    apply roundNearestEven_eq_of_abs_lt
    rw [hulp, div_inv_eq_mul]
    rw [hulp] at hhi
    have hxj : x * 2 ^ j < 2 ^ (53 : ℕ) := by
      have := mul_lt_mul_of_pos_right hhi hpow
      rwa [mul_assoc, inv_mul_cancel₀ hpow.ne', mul_one] at this
    have hNj : (N : ℚ) * 2 ^ j * (1 - 1 / 2 ^ (55 : ℕ)) ≤ x * 2 ^ j := by
      have := mul_le_mul_of_nonneg_right h1 hpow.le
      linarith
    push_cast
    rw [abs_lt]
    constructor
    · norm_num at hNj hxj ⊢
      linarith
    · have := mul_le_mul_of_nonneg_right h2 hpow.le
      linarith
  rw [hZ, hulp]
  push_cast
  field_simp

theorem roundToDouble_natCast (n : ℕ) (hn : n < 2 ^ 53) : roundToDouble (n : ℚ) = n := by
  rcases Nat.eq_zero_or_pos n with h | h
  · subst h; simp [roundToDouble_zero]
  · have hq : (0 : ℚ) < n := by exact_mod_cast h
    exact roundToDouble_eq_nat n n h hn (by nlinarith) le_rfl

/-- Rounding a value that is already rounded changes nothing. -/
theorem roundToDouble_idem (x : ℚ) (hx : 0 < x) :
    roundToDouble (roundToDouble x) = roundToDouble x := by
  have hu := ulp_pos x
  have hlo := ulp_mul_le x hx
  have hhi := lt_ulp_mul x
  have herr := roundNearestEven_sub_le (x / ulp x)
  rw [abs_le] at herr
  have hxu1 : (2 : ℚ) ^ (52 : ℕ) ≤ x / ulp x := by rw [le_div_iff₀ hu]; exact hlo
  have hxu2 : x / ulp x < (2 : ℚ) ^ (53 : ℕ) := by rw [div_lt_iff₀ hu]; exact hhi
  set Z := roundNearestEven (x / ulp x) with hZdef
  have hZ1 : (2 : ℤ) ^ (52 : ℕ) ≤ Z := by
    have : ((2 : ℤ) ^ (52 : ℕ) : ℚ) - 1 < Z := by push_cast; linarith [herr.1]
    have h2 : (2 : ℤ) ^ (52 : ℕ) - 1 < Z := by exact_mod_cast this
    omega
  have hZ2 : Z ≤ (2 : ℤ) ^ (53 : ℕ) := by
    have : (Z : ℚ) < (2 : ℤ) ^ (53 : ℕ) + 1 := by push_cast; linarith [herr.2]
    have h2 : Z < (2 : ℤ) ^ (53 : ℕ) + 1 := by exact_mod_cast this
    omega
  have hfl : roundToDouble x = Z * ulp x := roundToDouble_of_pos x hx
  have hue : ulp x = (2 : ℚ) ^ (Int.log 2 x - 52) := rfl
  have h52 : (2 : ℚ) ^ (Int.log 2 x) = (2 : ℚ) ^ (52 : ℕ) * ulp x := by
    rw [hue, ← zpow_natCast, ← zpow_add₀ (by norm_num)]; congr 1; push_cast; ring
  have h53 : (2 : ℚ) ^ (Int.log 2 x + 1) = (2 : ℚ) ^ (53 : ℕ) * ulp x := by
    rw [hue, ← zpow_natCast, ← zpow_add₀ (by norm_num)]; congr 1; push_cast; ring
  rw [hfl]
  rcases hZ2.lt_or_eq with hlt | heq
  · have hZq : (Z : ℚ) < (2 : ℚ) ^ (53 : ℕ) := by exact_mod_cast hlt
    have hZq1 : (2 : ℚ) ^ (52 : ℕ) ≤ (Z : ℚ) := by exact_mod_cast hZ1
    rw [roundToDouble_eq (Z * ulp x) (Int.log 2 x) Z
      (by rw [h52]; exact mul_le_mul_of_nonneg_right hZq1 hu.le)
      (by rw [h53]; exact mul_lt_mul_of_pos_right hZq hu)
      (by rw [← hue, mul_div_assoc, div_self hu.ne']; norm_num), ← hue]
  · have hZq : (Z : ℚ) = (2 : ℚ) ^ (53 : ℕ) := by exact_mod_cast heq
    have h54 : (2 : ℚ) ^ (Int.log 2 x + 1 + 1) = (2 : ℚ) ^ (54 : ℕ) * ulp x := by
      rw [hue, ← zpow_natCast, ← zpow_add₀ (by norm_num)]; congr 1; push_cast; ring
    have hu2 : (2 : ℚ) ^ (Int.log 2 x + 1 - 52) = 2 * ulp x := by
      rw [hue, show Int.log 2 x + 1 - 52 = 1 + (Int.log 2 x - 52) by ring,
        zpow_add₀ (by norm_num)]; norm_num
    rw [roundToDouble_eq (Z * ulp x) (Int.log 2 x + 1) ((2 : ℤ) ^ (52 : ℕ))
      (by rw [h53, hZq])
      (by rw [h54, hZq]; apply mul_lt_mul_of_pos_right _ hu; norm_num)
      (by
        rw [hu2, hZq]
        have : (2 : ℚ) ^ (53 : ℕ) * ulp x / (2 * ulp x) = (2 : ℚ) ^ (52 : ℕ) := by
          field_simp; ring
        rw [this]; norm_num)]
    rw [hu2, hZq]
    push_cast
    ring

theorem roundToDouble_idem_of_nonneg (x : ℚ) (hx : 0 ≤ x) :
    roundToDouble (roundToDouble x) = roundToDouble x := by
  rcases hx.eq_or_lt with h | h
  · rw [← h, roundToDouble_zero, roundToDouble_zero]
  · exact roundToDouble_idem x h

theorem ONE_POINT_01_eq : ONE_POINT_01 = 4548635623644201 / 4503599627370496 := by
  unfold ONE_POINT_01
  rw [roundToDouble_eq (101 / 100) 0 4548635623644201 (by norm_num) (by norm_num)
    (by norm_num [abs_lt])]
  norm_num

/-- When `D` does not divide `A`, a value within `1 / D` of `A / D` has the floor of `A / D`. -/
theorem floor_eq_div_of_near (A D : ℕ) (V : ℚ) (hD : 0 < D) (hnd : ¬ D ∣ A)
    (h1 : (A : ℚ) - 1 < D * V) (h2 : D * V < A + 1) : ⌊V⌋ = ((A / D : ℕ) : ℤ) := by
  have hdm : D * (A / D) + A % D = A := Nat.div_add_mod A D
  have hmod : A % D < D := Nat.mod_lt A hD
  have hmod0 : 0 < A % D := Nat.pos_of_ne_zero (fun h => hnd (Nat.dvd_of_mod_eq_zero h))
  generalize A / D = k at hdm ⊢
  generalize A % D = r at hdm hmod hmod0
  have hDq : (0 : ℚ) < D := by exact_mod_cast hD
  have hA : (A : ℚ) = D * k + r := by exact_mod_cast hdm.symm
  have hr0 : (1 : ℚ) ≤ r := by exact_mod_cast hmod0
  have hr1 : (r : ℚ) + 1 ≤ D := by exact_mod_cast hmod
  rw [Int.floor_eq_iff]
  push_cast
  constructor
  · have : (D : ℚ) * k < D * V := by linarith
    exact le_of_lt (lt_of_mul_lt_mul_left this hDq.le)
  · have : (D : ℚ) * V < D * (k + 1) := by linarith
    exact lt_of_mul_lt_mul_left this hDq.le

theorem ONE_POINT_01_pos : 0 < ONE_POINT_01 := by
  rw [ONE_POINT_01_eq]; norm_num

theorem intToDouble_natCast (m : ℕ) (hm : m < 2 ^ 53) : intToDouble (m : ℤ) = m := by
  unfold intToDouble
  rw [Int.cast_natCast]
  exact roundToDouble_natCast m hm

theorem divDouble_bounds (a b L U : ℚ) (hb : 0 < b) (hL : 0 ≤ L) (h1 : L ≤ a) (h2 : a ≤ U) :
    (1 - 1 / 2 ^ (53 : ℕ)) * (L / b) ≤ divDouble a b ∧
      divDouble a b ≤ (1 + 1 / 2 ^ (53 : ℕ)) * (U / b) := by
  have ha : 0 ≤ a / b := div_nonneg (le_trans hL h1) hb.le
  have hlo := le_roundToDouble (a / b) ha
  have hhi := roundToDouble_le (a / b) ha
  have h3 : L / b ≤ a / b := div_le_div_of_nonneg_right h1 hb.le
  have h4 : a / b ≤ U / b := div_le_div_of_nonneg_right h2 hb.le
  unfold divDouble
  constructor
  · exact le_trans (mul_le_mul_of_nonneg_left h3 (by norm_num)) hlo
  · exact le_trans hhi (mul_le_mul_of_nonneg_left h4 (by norm_num))

/-- Four roundings: the CUDA quotient is within a factor `(1 ± 2^-53)^4` of the exact
quotient by the `double` 1.01. -/
theorem cudaQuotient_bounds (F m : ℕ) (hm1 : 1 ≤ m) (hm2 : m < 2 ^ 53) :
    (1 - 1 / 2 ^ (53 : ℕ)) ^ 4 * ((F : ℚ) / ONE_POINT_01 / m / 1024) ≤ cudaQuotient F m ∧
      cudaQuotient F m ≤ (1 + 1 / 2 ^ (53 : ℕ)) ^ 4 * ((F : ℚ) / ONE_POINT_01 / m / 1024) := by
  have hc := ONE_POINT_01_pos
  have hmq : (0 : ℚ) < m := by exact_mod_cast hm1
  have hF : (0 : ℚ) ≤ F := by positivity
  have h0l := le_roundToDouble (F : ℚ) hF
  have h0u := roundToDouble_le (F : ℚ) hF
  have hL0 : (0 : ℚ) ≤ (1 - 1 / 2 ^ (53 : ℕ)) * F := mul_nonneg (by norm_num) hF
  obtain ⟨h1l, h1u⟩ := divDouble_bounds (sizeToDouble F) ONE_POINT_01 _ _ hc hL0 h0l h0u
  have hL1 : (0 : ℚ) ≤ (1 - 1 / 2 ^ (53 : ℕ)) * ((1 - 1 / 2 ^ (53 : ℕ)) * F / ONE_POINT_01) :=
    mul_nonneg (by norm_num) (div_nonneg hL0 hc.le)
  obtain ⟨h2l, h2u⟩ := divDouble_bounds _ (m : ℚ) _ _ hmq hL1 h1l h1u
  have hL2 : (0 : ℚ) ≤ (1 - 1 / 2 ^ (53 : ℕ)) *
      ((1 - 1 / 2 ^ (53 : ℕ)) * ((1 - 1 / 2 ^ (53 : ℕ)) * F / ONE_POINT_01) / m) :=
    mul_nonneg (by norm_num) (div_nonneg hL1 hmq.le)
  obtain ⟨h3l, h3u⟩ := divDouble_bounds _ (1024 : ℚ) _ _ (by norm_num) hL2 h2l h2u
  unfold cudaQuotient
  rw [intToDouble_natCast m hm2]
  constructor
  · refine le_trans (le_of_eq ?_) h3l
    field_simp
    ring
  · refine le_trans h3u (le_of_eq ?_)
    field_simp
    ring

theorem cudaQuotient_nonneg (F m : ℕ) (hm1 : 1 ≤ m) (hm2 : m < 2 ^ 53) :
    0 ≤ cudaQuotient F m := by
  have hc := ONE_POINT_01_pos
  refine le_trans ?_ (cudaQuotient_bounds F m hm1 hm2).1
  positivity

theorem divDouble_zero (b : ℚ) : divDouble 0 b = 0 := by
  simp [divDouble, roundToDouble_zero]

/-- Below `2^44` bytes the roundings of the CUDA quotient do not cross an integer: the
quotient has the floor of the exact `F * 100 / (103424 * m)`. -/
theorem cudaQuotient_floor (F m : ℕ) (hF : F < 2 ^ 44) (hm1 : 1 ≤ m) (hm2 : m < 2 ^ 53) :
    ⌊cudaQuotient F m⌋ = ((F * 100 / (103424 * m) : ℕ) : ℤ) := by
  have hmq : (0 : ℚ) < m := by exact_mod_cast hm1
  by_cases hd : 103424 * m ∣ F * 100
  · obtain ⟨k, hk⟩ := hd
    have hdiv : F * 100 / (103424 * m) = k := by
      rw [hk]; exact Nat.mul_div_cancel_left k (by omega)
    rw [hdiv]
    rcases Nat.eq_zero_or_pos F with hF0 | hFpos
    · have hk0 : k = 0 := by
        rcases Nat.eq_zero_or_pos k with h | h
        · exact h
        · have : 0 < 103424 * m * k := Nat.mul_pos (by omega) h
          omega
      subst hF0
      subst hk0
      simp [cudaQuotient, sizeToDouble, roundToDouble_zero, divDouble_zero]
    · have hN : 101 * (1024 * m * k) = 100 * F := by
        rw [show 101 * (1024 * m * k) = 103424 * m * k by ring, ← hk]; ring
      have hNpos : 0 < 1024 * m * k := by omega
      have hNlt : 1024 * m * k < 2 ^ 53 := by omega
      have hkpos : 0 < k := by
        rcases Nat.eq_zero_or_pos k with h | h
        · rw [h] at hNpos; simp at hNpos
        · exact h
      have hmk : 1024 * k ≤ 1024 * m * k := by nlinarith
      have hFq : (F : ℚ) = 101 * ((1024 * m * k : ℕ) : ℚ) / 100 := by
        have : (101 : ℚ) * ((1024 * m * k : ℕ) : ℚ) = 100 * (F : ℚ) := by exact_mod_cast hN
        linarith
      have hNq : (0 : ℚ) ≤ ((1024 * m * k : ℕ) : ℚ) := by positivity
      have hx : (F : ℚ) / ONE_POINT_01
          = ((1024 * m * k : ℕ) : ℚ) * (454863562364420096 / 454863562364420100) := by
        rw [ONE_POINT_01_eq, hFq]; ring
      have h1 : divDouble (sizeToDouble F) ONE_POINT_01 = ((1024 * m * k : ℕ) : ℚ) := by
        unfold divDouble sizeToDouble
        rw [roundToDouble_natCast F (by omega), hx]
        apply roundToDouble_eq_nat _ _ hNpos hNlt
        · exact mul_le_mul_of_nonneg_left (by norm_num) hNq
        · calc ((1024 * m * k : ℕ) : ℚ) * (454863562364420096 / 454863562364420100)
              ≤ ((1024 * m * k : ℕ) : ℚ) * 1 := mul_le_mul_of_nonneg_left (by norm_num) hNq
            _ = _ := mul_one _
      have h2 : divDouble ((1024 * m * k : ℕ) : ℚ) (intToDouble (m : ℤ))
          = ((1024 * k : ℕ) : ℚ) := by
        unfold divDouble
        rw [intToDouble_natCast m hm2]
        have : ((1024 * m * k : ℕ) : ℚ) / m = ((1024 * k : ℕ) : ℚ) := by
          push_cast; field_simp; ring
        rw [this]
        exact roundToDouble_natCast _ (by omega)
      have h3 : divDouble ((1024 * k : ℕ) : ℚ) 1024 = (k : ℚ) := by
        unfold divDouble
        have : ((1024 * k : ℕ) : ℚ) / 1024 = (k : ℚ) := by push_cast; field_simp
        rw [this]
        exact roundToDouble_natCast _ (by omega)
      unfold cudaQuotient
      rw [h1, h2, h3]
      exact Int.floor_natCast k
  · obtain ⟨hlo, hhi⟩ := cudaQuotient_bounds F m hm1 hm2
    have hFq : (F : ℚ) < 2 ^ (44 : ℕ) := by exact_mod_cast hF
    have hF0 : (0 : ℚ) ≤ F := by positivity
    have hDt : ((103424 * m : ℕ) : ℚ) * ((F : ℚ) / ONE_POINT_01 / m / 1024)
        = ((F * 100 : ℕ) : ℚ) * (454863562364420096 / 454863562364420100) := by
      rw [ONE_POINT_01_eq]; push_cast; field_simp; ring
    have hDpos : (0 : ℚ) < ((103424 * m : ℕ) : ℚ) := by positivity
    have hA0 : (0 : ℚ) ≤ ((F * 100 : ℕ) : ℚ) := by positivity
    have hA1 : ((F * 100 : ℕ) : ℚ) < 100 * 2 ^ (44 : ℕ) := by push_cast; linarith
    apply floor_eq_div_of_near (F * 100) (103424 * m) _ (by omega) hd
    · have h := mul_le_mul_of_nonneg_left hlo hDpos.le
      rw [mul_left_comm, hDt] at h
      have hc : (1 : ℚ) - 1 / (100 * 2 ^ (44 : ℕ))
          ≤ (1 - 1 / 2 ^ (53 : ℕ)) ^ 4 * (454863562364420096 / 454863562364420100) := by
        norm_num
      have h5 := mul_le_mul_of_nonneg_left hc hA0
      have h6 : ((F * 100 : ℕ) : ℚ) * (1 - 1 / (100 * 2 ^ (44 : ℕ)))
          > ((F * 100 : ℕ) : ℚ) - 1 := by
        have : ((F * 100 : ℕ) : ℚ) * (1 / (100 * 2 ^ (44 : ℕ))) < 1 := by
          rw [mul_one_div, div_lt_one (by positivity)]; exact hA1
        linarith
      linarith
    · have h := mul_le_mul_of_nonneg_left hhi hDpos.le
      rw [mul_left_comm, hDt] at h
      have hc : (1 + 1 / 2 ^ (53 : ℕ)) ^ 4 * (454863562364420096 / 454863562364420100)
          ≤ (1 : ℚ) + 1 / (100 * 2 ^ (44 : ℕ)) := by
        norm_num
      have h5 := mul_le_mul_of_nonneg_left hc hA0
      have h6 : ((F * 100 : ℕ) : ℚ) * (1 + 1 / (100 * 2 ^ (44 : ℕ)))
          < ((F * 100 : ℕ) : ℚ) + 1 := by
        have : ((F * 100 : ℕ) : ℚ) * (1 / (100 * 2 ^ (44 : ℕ))) < 1 := by
          rw [mul_one_div, div_lt_one (by positivity)]; exact hA1
        linarith
      linarith

/-- The OpenCL quotient of `k` is the CUDA quotient of `k` by 1. -/
theorem openclQuotient_eq_cudaQuotient (k : ℕ) : openclQuotient k = cudaQuotient k 1 := by
  have h1 : intToDouble 1 = 1 := by
    have := intToDouble_natCast 1 (by norm_num)
    simpa using this
  have hx : 0 ≤ sizeToDouble k / ONE_POINT_01 :=
    div_nonneg (roundToDouble_nonneg _ (by positivity)) ONE_POINT_01_pos.le
  unfold openclQuotient cudaQuotient
  rw [h1]
  congr 1
  show _ = roundToDouble (divDouble (sizeToDouble k) ONE_POINT_01 / 1)
  rw [div_one]
  exact (roundToDouble_idem_of_nonneg _ hx).symm

/-- From `2^44` bytes on the CUDA quotient is at least 1 for every positive `int` `mcost`. -/
theorem one_le_cudaQuotient (F m : ℕ) (hF : 2 ^ 44 ≤ F) (hm1 : 1 ≤ m) (hm2 : m ≤ 2147483647) :
    1 ≤ cudaQuotient F m := by
  obtain ⟨hlo, _⟩ := cudaQuotient_bounds F m hm1 (by omega)
  have hmq : (0 : ℚ) < m := by exact_mod_cast hm1
  have hmq2 : (m : ℚ) ≤ 2147483647 := by exact_mod_cast hm2
  have hFq : (17592186044416 : ℚ) ≤ F := by exact_mod_cast hF
  have ht : (7 : ℚ) ≤ (F : ℚ) / ONE_POINT_01 / m / 1024 := by
    rw [ONE_POINT_01_eq, div_div, div_div, le_div_iff₀ (by positivity)]
    linarith
  have hc : (0 : ℚ) ≤ (1 - 1 / 2 ^ (53 : ℕ)) ^ 4 := by norm_num
  have h7 : (1 : ℚ) ≤ (1 - 1 / 2 ^ (53 : ℕ)) ^ 4 * 7 := by norm_num
  exact le_trans (le_trans h7 (mul_le_mul_of_nonneg_left ht hc)) hlo

/-- The CUDA quotient at 585310787566039 bytes and `mcost = 1727`. -/
theorem cudaQuotient_585310787566039_1727 : cudaQuotient 585310787566039 1727 = 327697298 := by
  have h0 : sizeToDouble 585310787566039 = 585310787566039 := by
    have := roundToDouble_natCast 585310787566039 (by norm_num)
    simpa [sizeToDouble] using this
  have hm : intToDouble 1727 = 1727 := by
    have := intToDouble_natCast 1727 (by norm_num)
    simpa using this
  have h1 : divDouble 585310787566039 ONE_POINT_01 = 579515631253504 := by
    unfold divDouble
    rw [ONE_POINT_01_eq, roundToDouble_eq _ 49 4636125050028032 (by norm_num) (by norm_num)
      (by norm_num [abs_lt])]
    norm_num
  have h2 : divDouble 579515631253504 1727 = 335562033152 := by
    unfold divDouble
    rw [roundToDouble_eq _ 38 5497848351162368 (by norm_num) (by norm_num)
      (by norm_num [abs_lt])]
    norm_num
  have h3 : divDouble 335562033152 1024 = 327697298 := by
    unfold divDouble
    rw [roundToDouble_eq _ 28 5497848351162368 (by norm_num) (by norm_num)
      (by norm_num [abs_lt])]
    norm_num
  unfold cudaQuotient
  rw [h0, hm, h1, h2, h3]

/-! ## Arithmetic of the sizing expressions -/

theorem truncate_of_nonneg {q : ℚ} (hq : 0 ≤ q) : truncate q = ⌊q⌋ := by
  simp [truncate, hq]

theorem doubleToInt_of_nonneg {q : ℚ} (hq : 0 ≤ q) (hfit : ⌊q⌋ ≤ INT_MAX) :
    doubleToInt q = some ⌊q⌋ := by
  have h0 : (0 : ℤ) ≤ ⌊q⌋ := Int.floor_nonneg.mpr hq
  have hmin : INT_MIN ≤ ⌊q⌋ := le_trans (by decide) h0
  simp [doubleToInt, truncate_of_nonneg hq, hmin, hfit]

theorem toUInt64_of_pos {mcost : ℤ} (h1 : 1 ≤ mcost) (h2 : mcost ≤ INT_MAX) :
    toUInt64 mcost = mcost.toNat := by
  unfold toUInt64
  unfold INT_MAX at h2
  rw [Int.emod_eq_of_lt (by omega) (by omega)]

/-- The floor of the exact quotient of the spec, `freeBytes / (memoryCost * 1.01) / 1024`
with `1.01 = 101/100`, as an integer division. -/
theorem spec_floor_eq (freeBytes m : ℕ) (hm : 1 ≤ m) :
    ⌊(freeBytes : ℚ) / (((m : ℤ) : ℚ) * (101 / 100)) / 1024⌋
      = ((freeBytes * 100 / (103424 * m) : ℕ) : ℤ) := by
  have hm0 : (0 : ℚ) < m := by exact_mod_cast hm
  have h : (freeBytes : ℚ) / (((m : ℤ) : ℚ) * (101 / 100)) / 1024
      = ((freeBytes * 100 : ℕ) : ℚ) / ((103424 * m : ℕ) : ℚ) := by
    push_cast
    rw [div_div, div_eq_div_iff (by positivity) (by positivity)]
    ring
  rw [h, Rat.floor_natCast_div_natCast]
  norm_cast

/-- The CUDA batch size is the floor of the CUDA quotient when that is below `2^31`. -/
theorem cudaBatchSize_of_lt (F m : ℕ) (hm1 : 1 ≤ m) (hm2 : m ≤ 2147483647)
    (hV : cudaQuotient F (m : ℤ) < 2147483648) :
    cudaBatchSize F (m : ℤ) = some ⌊cudaQuotient F (m : ℤ)⌋ := by
  have hne : (m : ℤ) ≠ 0 := by omega
  have h0 := cudaQuotient_nonneg F m hm1 (by omega)
  have hfl : ⌊cudaQuotient F (m : ℤ)⌋ ≤ INT_MAX := by
    have : ⌊cudaQuotient F (m : ℤ)⌋ < 2147483648 := Int.floor_lt.mpr (by exact_mod_cast hV)
    unfold INT_MAX
    omega
  unfold cudaBatchSize
  rw [if_neg hne, doubleToInt_of_nonneg h0 hfl]

/-- Below `2^44` bytes a CUDA quotient whose exact floor is an `int` is below `2^31`. -/
theorem cudaQuotient_lt_of_fit (F m : ℕ) (hF : F < 2 ^ 44) (hm1 : 1 ≤ m)
    (hm2 : m ≤ 2147483647) (hfit : F * 100 / (103424 * m) ≤ 2147483647) :
    cudaQuotient F (m : ℤ) < 2147483648 := by
  have h1 := Int.lt_floor_add_one (cudaQuotient F (m : ℤ))
  rw [cudaQuotient_floor F m hF hm1 (by omega)] at h1
  have h2 : ((F * 100 / (103424 * m) : ℕ) : ℚ) + 1 ≤ 2147483648 := by
    exact_mod_cast (by omega : F * 100 / (103424 * m) + 1 ≤ 2147483648)
  have h3 : (((F * 100 / (103424 * m) : ℕ) : ℤ) : ℚ) = ((F * 100 / (103424 * m) : ℕ) : ℚ) :=
    Int.cast_natCast _
  rw [h3] at h1
  linarith

/-- The CUDA batch size in integer arithmetic, for a positive `mcost` and fewer than
`2^44` bytes. -/
theorem cudaBatchSize_eq_div (freeMemory m : ℕ) (hF : freeMemory < 2 ^ 44) (hm : 1 ≤ m)
    (hm2 : m ≤ 2147483647) (hfit : freeMemory * 100 / (103424 * m) ≤ 2147483647) :
    cudaBatchSize freeMemory (m : ℤ) = some ((freeMemory * 100 / (103424 * m) : ℕ) : ℤ) := by
  rw [cudaBatchSize_of_lt freeMemory m hm hm2
    (cudaQuotient_lt_of_fit freeMemory m hF hm hm2 hfit),
    cudaQuotient_floor freeMemory m hF hm (by omega)]

/-- The OpenCL batch size in integer arithmetic, for a positive `mcost` and an integer
quotient below `2^44`. -/
theorem openclBatchSize_eq_div (memorySize m : ℕ) (hm : 1 ≤ m) (hm2 : m ≤ 2147483647)
    (hK : memorySize / m < 2 ^ 44) (hfit : memorySize / m * 100 / 103424 ≤ 2147483647) :
    openclBatchSize memorySize (m : ℤ) = some ((memorySize / m * 100 / 103424 : ℕ) : ℤ) := by
  have hu : toUInt64 (m : ℤ) = m := by
    rw [toUInt64_of_pos (by omega) (by unfold INT_MAX; omega)]; simp
  have h1 : cudaQuotient (memorySize / m) 1 = cudaQuotient (memorySize / m) ((1 : ℕ) : ℤ) := by
    rw [Nat.cast_one]
  have hfl : ⌊cudaQuotient (memorySize / m) ((1 : ℕ) : ℤ)⌋
      = ((memorySize / m * 100 / 103424 : ℕ) : ℤ) := by
    rw [cudaQuotient_floor (memorySize / m) 1 hK le_rfl (by norm_num), Nat.mul_one]
  have h0 := cudaQuotient_nonneg (memorySize / m) 1 le_rfl (by norm_num)
  unfold openclBatchSize
  rw [hu, if_neg (by omega), openclQuotient_eq_cudaQuotient, h1,
    doubleToInt_of_nonneg h0 (by rw [hfl]; unfold INT_MAX; exact_mod_cast hfit), hfl]

/-- The CUDA quotient reaches 1 exactly when `freeMemory >= 1034.24 * mcost`. -/
theorem one_le_floor_cudaQuotient_iff (F m : ℕ) (hm1 : 1 ≤ m) (hm2 : m ≤ 2147483647) :
    1 ≤ ⌊cudaQuotient F (m : ℤ)⌋ ↔ 103424 * m ≤ F * 100 := by
  rcases lt_or_le F (2 ^ 44) with hF | hF
  · rw [cudaQuotient_floor F m hF hm1 (by omega)]
    have hnat : 1 ≤ F * 100 / (103424 * m) ↔ 103424 * m ≤ F * 100 := by
      rw [Nat.le_div_iff_mul_le (by omega), one_mul]
    rw [← hnat]
    exact_mod_cast Iff.rfl
  · constructor
    · intro _
      omega
    · intro _
      exact Int.le_floor.mpr (by exact_mod_cast one_le_cudaQuotient F m hF hm1 hm2)

/-- Integer division first loses at most one unit of the batch size. -/
theorem opencl_div_bounds (M m : ℕ) (hm : 1 ≤ m) :
    M / m * 100 / 103424 ≤ M * 100 / (103424 * m) ∧
      M * 100 / (103424 * m) ≤ M / m * 100 / 103424 + 1 := by
  have h1 : M * 100 / (103424 * m) = M * 100 / m / 103424 := by
    rw [Nat.mul_comm 103424 m, Nat.div_div_eq_div_mul]
  have hdm : m * (M / m) + M % m = M := Nat.div_add_mod M m
  have hmod : M % m < m := Nat.mod_lt M (by omega)
  generalize M / m = a at hdm ⊢
  generalize M % m = r at hdm hmod
  have h2 : a * 100 ≤ M * 100 / m := by
    rw [Nat.le_div_iff_mul_le (by omega)]
    nlinarith
  have h3 : M * 100 / m < a * 100 + 100 := by
    rw [Nat.div_lt_iff_lt_mul (by omega)]
    nlinarith
  rw [h1]
  omega

theorem resolveBatchSize_cuda (build : Build) (args : Arguments) (mcost : ℤ)
    (mem : DeviceMemory) (hbuild : build.HAVE_CUDA = true) (hmode : args.mode = "cuda")
    (hauto : args.batchSize = 0) :
    resolveBatchSize build args mcost mem
      = (cudaBatchSize mem.freeMemory mcost).map fun b =>
          (b, [Event.cudaMemGetInfo, Event.printfBatchSize b]) := by
  simp [resolveBatchSize, hauto, hmode, hbuild]

theorem resolveBatchSize_opencl (build : Build) (args : Arguments) (mcost : ℤ)
    (mem : DeviceMemory) (hbuild : build.HAVE_OPENCL = true) (hmode : args.mode = "opencl")
    (hauto : args.batchSize = 0) :
    resolveBatchSize build args mcost mem
      = (openclBatchSize mem.memorySize mcost).map fun b =>
          (b, [Event.clGetDeviceInfo, Event.printfBatchSize b]) := by
  simp [resolveBatchSize, hauto, hmode, hbuild]

theorem resolveBatchSize_other (build : Build) (args : Arguments) (mcost : ℤ)
    (mem : DeviceMemory) (hopencl : args.mode ≠ "opencl") (hcuda : args.mode ≠ "cuda")
    (hauto : args.batchSize = 0) :
    resolveBatchSize build args mcost mem = some (0, [Event.printfBatchSize 0]) := by
  simp [resolveBatchSize, hauto, hopencl, hcuda, toInt32]

theorem resolveBatchSize_explicit (build : Build) (args : Arguments) (mcost : ℤ)
    (mem : DeviceMemory) (hb : args.batchSize ≠ 0) :
    resolveBatchSize build args mcost mem = some (toInt32 args.batchSize, []) := by
  simp [resolveBatchSize, hb]


/-! ## Two inputs beyond `2^44` bytes

They show why the statements below bound the probed bytes, and why the result that has
to fit an `int` is the `double` that is converted, not the exact quotient. -/

/-- The CUDA quotient at 615220736205783 bytes and `mcost = 277` is exactly `2^31`. -/
theorem cudaQuotient_615220736205783_277 : cudaQuotient 615220736205783 277 = 2147483648 := by
  have h0 : sizeToDouble 615220736205783 = 615220736205783 := by
    have := roundToDouble_natCast 615220736205783 (by norm_num)
    simpa [sizeToDouble] using this
  have hm : intToDouble 277 = 277 := by
    have := intToDouble_natCast 277 (by norm_num)
    simpa using this
  have h1 : divDouble 615220736205783 ONE_POINT_01 = 609129441787904 := by
    unfold divDouble
    rw [ONE_POINT_01_eq, roundToDouble_eq _ 49 4873035534303232 (by norm_num) (by norm_num)
      (by norm_num [abs_lt])]
    norm_num
  have h2 : divDouble 609129441787904 277 = 2199023255552 := by
    unfold divDouble
    rw [roundToDouble_eq _ 41 4503599627370496 (by norm_num) (by norm_num)
      (by norm_num [abs_lt])]
    norm_num
  have h3 : divDouble 2199023255552 1024 = 2147483648 := by
    unfold divDouble
    rw [roundToDouble_eq _ 31 4503599627370496 (by norm_num) (by norm_num)
      (by norm_num [abs_lt])]
    norm_num
  unfold cudaQuotient
  rw [h0, hm, h1, h2, h3]

/-- At 615220736205783 bytes and `mcost = 277` the exact quotient has the floor
`INT_MAX`, but the `double` that is converted is `2^31`: the conversion has no result. -/
theorem cudaBatchSize_615220736205783_277 :
    ⌊(615220736205783 : ℚ) / (277 * (101 / 100)) / 1024⌋ = INT_MAX ∧
      cudaBatchSize 615220736205783 277 = none := by
  constructor
  · rw [Int.floor_eq_iff]
    constructor <;> norm_num [INT_MAX]
  · have hq : (2147483648 : ℚ) = ((2147483648 : ℤ) : ℚ) := by norm_num
    have ht : truncate (2147483648 : ℚ) = 2147483648 := by
      rw [truncate_of_nonneg (by norm_num), hq, Int.floor_intCast]
    unfold cudaBatchSize
    rw [if_neg (by decide), cudaQuotient_615220736205783_277]
    unfold doubleToInt
    rw [ht, if_neg (by decide)]

/-- The CUDA quotient at 2306492496099817728 bytes and `mcost = 9032839`. -/
theorem cudaQuotient_2306492496099817728_9032839 :
    cudaQuotient 2306492496099817728 9032839 = 8284309920153599 / 33554432 := by
  have h0 : sizeToDouble 2306492496099817728 = 2306492496099817472 := by
    unfold sizeToDouble
    rw [roundToDouble_eq_of_tie_even _ 61 4504868156444956 (by norm_num) (by norm_num)
      (by norm_num) (by decide)]
    norm_num
  have hm : intToDouble 9032839 = 9032839 := by
    have := intToDouble_natCast 9032839 (by norm_num)
    simpa using this
  have h1 : divDouble 2306492496099817472 ONE_POINT_01 = 2283655936732492544 := by
    unfold divDouble
    rw [ONE_POINT_01_eq, roundToDouble_eq _ 60 8920531002861299 (by norm_num) (by norm_num)
      (by norm_num [abs_lt])]
    norm_num
  have h2 : divDouble 2283655936732492544 9032839 = 8284309920153599 / 32768 := by
    unfold divDouble
    rw [roundToDouble_eq _ 37 8284309920153599 (by norm_num) (by norm_num)
      (by norm_num [abs_lt])]
    norm_num
  have h3 : divDouble (8284309920153599 / 32768) 1024 = 8284309920153599 / 33554432 := by
    unfold divDouble
    rw [roundToDouble_eq _ 27 8284309920153599 (by norm_num) (by norm_num)
      (by norm_num [abs_lt])]
    norm_num
  unfold cudaQuotient
  rw [h0, hm, h1, h2, h3]

/-- At 2306492496099817728 bytes and `mcost = 9032839`, which divides the byte count,
the OpenCL expression gives 246891675 and the CUDA expression 246891674. -/
theorem opencl_exceeds_cuda_2306492496099817728_9032839 :
    (9032839 : ℤ) ∣ ((2306492496099817728 : ℕ) : ℤ) ∧
      openclBatchSize 2306492496099817728 9032839 = some 246891675 ∧
      cudaBatchSize 2306492496099817728 9032839 = some 246891674 := by
  refine ⟨by decide, ?_, ?_⟩
  · have ho := openclBatchSize_eq_div 2306492496099817728 9032839 (by decide) (by decide)
      (by norm_num) (by decide)
    simp only [Nat.cast_ofNat] at ho
    rw [ho]
    decide
  · have hfl : ⌊(8284309920153599 / 33554432 : ℚ)⌋ = 246891674 := by
      rw [Int.floor_eq_iff]
      constructor <;> norm_num
    unfold cudaBatchSize
    rw [if_neg (by decide), cudaQuotient_2306492496099817728_9032839,
      doubleToInt_of_nonneg (by norm_num) (by rw [hfl]; decide), hfl]

/-! ## C1, C2: the CUDA formula -/

/-- C1, as stated, fails: with 585310787566039 free bytes and `mcost = 1727` the three
rounded divisions of the CUDA path give exactly 327697298, while
`floor(freeBytes / (memoryCost * 1.01) / 1024)`, with `1.01 = 101/100`, is 327697297. -/
theorem C1_cuda_batch_exceeds_floor :
    resolveBatchSize ⟨true, false⟩ {} 1727 ⟨585310787566039, 585310787566039, 0⟩
        = some (327697298, [Event.cudaMemGetInfo, Event.printfBatchSize 327697298]) ∧
      ⌊(585310787566039 : ℚ) / (1727 * (101 / 100)) / 1024⌋ = 327697297 := by
  constructor
  · have hq : (327697298 : ℚ) = ((327697298 : ℤ) : ℚ) := by norm_num
    have hc : cudaBatchSize 585310787566039 1727 = some 327697298 := by
      unfold cudaBatchSize
      rw [if_neg (by decide), cudaQuotient_585310787566039_1727,
        doubleToInt_of_nonneg (by norm_num) (by rw [hq, Int.floor_intCast]; decide), hq,
        Int.floor_intCast]
    rw [resolveBatchSize_cuda _ _ _ _ rfl rfl rfl, hc]
    rfl
  · rw [Int.floor_eq_iff]
    constructor <;> norm_num

/-- C1, amended: in automatic mode (`args.batchSize = 0`) on the CUDA path, for fewer
than `2^44` probed free bytes and every `int` `mcost >= 1` whose result fits an `int`,
the batch size computed in `double` is `floor(freeBytes / (memoryCost * 1.01) / 1024)`,
with `1.01 = 101/100`; the block probes the device once and prints the value. -/
theorem C1_cuda_automatic_batch_is_floor (build : Build) (args : Arguments)
    (mem : DeviceMemory) (mcost : ℤ)
    (hbuild : build.HAVE_CUDA = true) (hmode : args.mode = "cuda")
    (hauto : args.batchSize = 0) (hm : 1 ≤ mcost) (hint : mcost ≤ INT_MAX)
    (hfree : mem.freeMemory < 2 ^ 44)
    (hfit : ⌊(mem.freeMemory : ℚ) / ((mcost : ℚ) * (101 / 100)) / 1024⌋ ≤ INT_MAX) :
    resolveBatchSize build args mcost mem
      = some (⌊(mem.freeMemory : ℚ) / ((mcost : ℚ) * (101 / 100)) / 1024⌋,
          [Event.cudaMemGetInfo,
           Event.printfBatchSize ⌊(mem.freeMemory : ℚ) / ((mcost : ℚ) * (101 / 100)) / 1024⌋]) := by
  lift mcost to ℕ using (by omega) with m
  have hm1 : 1 ≤ m := by exact_mod_cast hm
  have hm2 : m ≤ 2147483647 := by unfold INT_MAX at hint; exact_mod_cast hint
  rw [spec_floor_eq mem.freeMemory m hm1] at hfit ⊢
  have hfitc : mem.freeMemory * 100 / (103424 * m) ≤ 2147483647 := by
    unfold INT_MAX at hfit; exact_mod_cast hfit
  rw [resolveBatchSize_cuda build args _ mem hbuild hmode hauto,
    cudaBatchSize_eq_div mem.freeMemory m hfree hm1 hm2 hfitc]
  rfl

/-- C1 amended, at `freeMemory = 8000000000`, `mcost = 2000`. -/
theorem C1_cuda_automatic_batch_is_floor_witness :
    resolveBatchSize ⟨true, false⟩ {} 2000 ⟨8000000000, 8000000000, 0⟩
      = some (⌊((8000000000 : ℕ) : ℚ) / (((2000 : ℤ) : ℚ) * (101 / 100)) / 1024⌋,
          [Event.cudaMemGetInfo,
           Event.printfBatchSize
             ⌊((8000000000 : ℕ) : ℚ) / (((2000 : ℤ) : ℚ) * (101 / 100)) / 1024⌋]) :=
  C1_cuda_automatic_batch_is_floor ⟨true, false⟩ {} ⟨8000000000, 8000000000, 0⟩ 2000
    rfl rfl rfl (by decide) (by decide) (by norm_num)
    (le_of_lt (Int.floor_lt.mpr (by norm_num [INT_MAX])))

/-- C2, as stated, fails: automatic sizing with `freeMemory = 8000000000` and
`mcost = 2000` on the CUDA path does not yield 3865. -/
theorem C2_batch_is_not_3865 :
    (resolveBatchSize ⟨true, false⟩ {} 2000 ⟨8000000000, 8000000000, 0⟩).map Prod.fst
      ≠ some 3865 := by
  have h := cudaBatchSize_eq_div 8000000000 2000 (by norm_num) (by decide) (by decide)
    (by decide)
  simp only [Nat.cast_ofNat] at h
  rw [resolveBatchSize_cuda _ _ _ _ rfl rfl rfl, h]
  decide

/-- C2, amended: automatic sizing with `freeMemory = 8000000000` and `mcost = 2000`
on the CUDA path yields `floor(8000000000 / (2000 * 1.01) / 1024) = 3867`. -/
theorem C2_batch_is_3867 (build : Build) (args : Arguments) (mem : DeviceMemory)
    (hbuild : build.HAVE_CUDA = true) (hmode : args.mode = "cuda")
    (hauto : args.batchSize = 0) (hfree : mem.freeMemory = 8000000000) :
    resolveBatchSize build args 2000 mem
        = some (3867, [Event.cudaMemGetInfo, Event.printfBatchSize 3867]) ∧
      ⌊(8000000000 : ℚ) / (2000 * (101 / 100)) / 1024⌋ = 3867 := by
  have h := cudaBatchSize_eq_div 8000000000 2000 (by norm_num) (by decide) (by decide)
    (by decide)
  simp only [Nat.cast_ofNat] at h
  constructor
  · rw [resolveBatchSize_cuda build args 2000 mem hbuild hmode hauto, hfree, h]
    rfl
  · rw [Int.floor_eq_iff]
    constructor <;> norm_num

/-- C2 amended, at the default arguments on a CUDA build. -/
theorem C2_batch_is_3867_witness :
    resolveBatchSize ⟨true, false⟩ {} 2000 ⟨8000000000, 8000000000, 0⟩
        = some (3867, [Event.cudaMemGetInfo, Event.printfBatchSize 3867]) ∧
      ⌊(8000000000 : ℚ) / (2000 * (101 / 100)) / 1024⌋ = 3867 :=
  C2_batch_is_3867 ⟨true, false⟩ {} ⟨8000000000, 8000000000, 0⟩ rfl rfl rfl rfl

/-! ## C10: the OpenCL and the CUDA expression -/

/-- C10, as stated, fails: with 8000000000 bytes and `mcost = 794` the OpenCL
expression gives 9741 and the CUDA expression gives 9742. -/
theorem C10_opencl_differs_from_cuda :
    openclBatchSize 8000000000 794 = some 9741 ∧
      cudaBatchSize 8000000000 794 = some 9742 ∧
      openclBatchSize 8000000000 794 ≠ cudaBatchSize 8000000000 794 := by
  have ho := openclBatchSize_eq_div 8000000000 794 (by decide) (by decide) (by norm_num)
    (by decide)
  have hc := cudaBatchSize_eq_div 8000000000 794 (by norm_num) (by decide) (by decide)
    (by decide)
  simp only [Nat.cast_ofNat] at ho hc
  rw [ho, hc]
  decide

/-- C10, amended: for fewer than `2^44` probed bytes `M` and every `int` `mcost >= 1`
for which the result fits an `int`, both expressions, evaluated in `double`, have a
result, the OpenCL one is at most the CUDA one and at least the CUDA one minus 1, and
the two are equal when `mcost` divides `M`. -/
theorem C10_opencl_le_cuda_le_succ (M : ℕ) (mcost : ℤ) (hm : 1 ≤ mcost)
    (hint : mcost ≤ INT_MAX) (hM : M < 2 ^ 44)
    (hfit : ⌊(M : ℚ) / ((mcost : ℚ) * (101 / 100)) / 1024⌋ ≤ INT_MAX) :
    ∃ o c : ℤ, openclBatchSize M mcost = some o ∧ cudaBatchSize M mcost = some c ∧
      o ≤ c ∧ c ≤ o + 1 ∧ (mcost ∣ (M : ℤ) → o = c) := by
  lift mcost to ℕ using (by omega) with m
  have hm1 : 1 ≤ m := by exact_mod_cast hm
  have hm2 : m ≤ 2147483647 := by unfold INT_MAX at hint; exact_mod_cast hint
  rw [spec_floor_eq M m hm1] at hfit
  have hfitc : M * 100 / (103424 * m) ≤ 2147483647 := by
    unfold INT_MAX at hfit; exact_mod_cast hfit
  obtain ⟨hlo, hhi⟩ := opencl_div_bounds M m hm1
  have hK : M / m < 2 ^ 44 := lt_of_le_of_lt (Nat.div_le_self M m) hM
  refine ⟨_, _, openclBatchSize_eq_div M m hm1 hm2 hK (by omega),
    cudaBatchSize_eq_div M m hM hm1 hm2 hfitc, by exact_mod_cast hlo,
    by exact_mod_cast hhi, ?_⟩
  intro hdvd
  have hdvd2 : m ∣ M := by exact_mod_cast hdvd
  obtain ⟨k, rfl⟩ := hdvd2
  have h1 : m * k / m = k := Nat.mul_div_cancel_left k (by omega)
  have h2 : m * k * 100 / (103424 * m) = k * 100 / 103424 := by
    rw [show m * k * 100 = m * (k * 100) by ring, Nat.mul_comm 103424 m,
      Nat.mul_div_mul_left _ _ (by omega)]
  rw [h1, h2]

/-- C10 amended, at 8000000000 bytes and `mcost = 794`. -/
theorem C10_opencl_le_cuda_le_succ_witness :
    ∃ o c : ℤ, openclBatchSize 8000000000 794 = some o ∧
      cudaBatchSize 8000000000 794 = some c ∧
      o ≤ c ∧ c ≤ o + 1 ∧ ((794 : ℤ) ∣ ((8000000000 : ℕ) : ℤ) → o = c) :=
  C10_opencl_le_cuda_le_succ 8000000000 794 (by decide) (by decide) (by norm_num)
    (le_of_lt (Int.floor_lt.mpr (by norm_num [INT_MAX])))

/-! ## C3, C4: the batch size handed to the director -/

theorem toInt32_of_le {n : ℕ} (h : (n : ℤ) ≤ INT_MAX) : toInt32 (n : ℤ) = n := by
  unfold toInt32
  unfold INT_MAX at h
  omega

/-- An iteration on the CUDA path in automatic mode. -/
theorem iteration_cuda (build : Build) (args : Arguments) (b : Boundary) (n : ℤ)
    (hbuild : build.HAVE_CUDA = true) (hmode : args.mode = "cuda")
    (hauto : args.batchSize = 0) (hn : cudaBatchSize b.mem.freeMemory b.difficulty = some n) :
    iteration build args b
      = some (makeDirector args b.difficulty n,
          [Event.coutCurrentDifficulty b.printed, Event.cudaMemGetInfo,
           Event.printfBatchSize n,
           Event.runBenchmarkCuda (makeDirector args b.difficulty n)]) := by
  simp [iteration, resolveBatchSize_cuda build args _ _ hbuild hmode hauto, hn, dispatch,
    hmode, hbuild]

/-- An iteration on the OpenCL path in automatic mode. -/
theorem iteration_opencl (build : Build) (args : Arguments) (b : Boundary) (n : ℤ)
    (hbuild : build.HAVE_OPENCL = true) (hmode : args.mode = "opencl")
    (hauto : args.batchSize = 0) (hn : openclBatchSize b.mem.memorySize b.difficulty = some n) :
    iteration build args b
      = some (makeDirector args b.difficulty n,
          [Event.coutCurrentDifficulty b.printed, Event.clGetDeviceInfo,
           Event.printfBatchSize n,
           Event.runBenchmarkOpenCL (makeDirector args b.difficulty n)]) := by
  simp [iteration, resolveBatchSize_opencl build args _ _ hbuild hmode hauto, hn, dispatch,
    hmode, hbuild]

/-- An iteration in automatic mode in a mode that is neither `opencl` nor `cuda`. -/
theorem iteration_other (build : Build) (args : Arguments) (b : Boundary)
    (hopencl : args.mode ≠ "opencl") (hcuda : args.mode ≠ "cuda")
    (hauto : args.batchSize = 0) :
    iteration build args b
      = some (makeDirector args b.difficulty 0,
          [Event.coutCurrentDifficulty b.printed, Event.printfBatchSize 0]) := by
  simp [iteration, resolveBatchSize_other build args _ _ hopencl hcuda hauto, dispatch,
    hopencl, hcuda]

/-- An iteration with an explicit batch size. -/
theorem iteration_explicit (build : Build) (args : Arguments) (b : Boundary)
    (hb : args.batchSize ≠ 0) :
    iteration build args b
      = some (makeDirector args b.difficulty (toInt32 args.batchSize),
          [Event.coutCurrentDifficulty b.printed] ++
            dispatch build args (makeDirector args b.difficulty (toInt32 args.batchSize))) := by
  simp [iteration, resolveBatchSize_explicit build args _ _ hb]

theorem dispatch_no_probe (build : Build) (args : Arguments) (d : BenchmarkDirector) :
    (dispatch build args d).any Event.isProbe = false := by
  unfold dispatch
  split_ifs <;> simp [Event.isProbe]

/-- C3, as stated, fails: in automatic mode the `cpu` mode hands `batchSize = 0` to the
director, and so does the CUDA path when the free memory (here 1000000 bytes at
`mcost = 1727`) is below `mcost * 1.01 * 1024`; neither writes a diagnostic. -/
theorem C3_automatic_batch_can_be_zero :
    (iteration ⟨true, true⟩ { mode := "cpu" }
        ⟨true, 1727, 1727, ⟨8000000000, 8000000000, 8000000000⟩⟩).map
        (fun r => (r.1.batchSize, r.2.any Event.isDiagnostic)) = some (0, false) ∧
      (iteration ⟨true, true⟩ { mode := "cuda" }
        ⟨true, 1727, 1727, ⟨1000000, 8000000000, 8000000000⟩⟩).map
        (fun r => (r.1.batchSize, r.2.any Event.isDiagnostic)) = some (0, false) := by
  constructor
  · rw [iteration_other ⟨true, true⟩ { mode := "cpu" }
      ⟨true, 1727, 1727, ⟨8000000000, 8000000000, 8000000000⟩⟩ (by decide) (by decide) rfl]
    rfl
  · have hc := cudaBatchSize_eq_div 1000000 1727 (by norm_num) (by decide) (by decide)
      (by decide)
    simp only [Nat.cast_ofNat] at hc
    rw [iteration_cuda ⟨true, true⟩ { mode := "cuda" }
      ⟨true, 1727, 1727, ⟨1000000, 8000000000, 8000000000⟩⟩ _ rfl rfl rfl hc]
    rfl

/-- C3, amended: automatic sizing reports no sizing error and clamps nothing.  On the
CUDA path, for an `int` `mcost >= 1` whose `double` result fits an `int` (is below
`2^31`), the `batchSize` handed to the director is `>= 0`, and `>= 1` exactly when
`freeMemory >= mcost * 1.01 * 1024`; on the OpenCL path it is `>= 1` exactly when
`memorySize >= 1035 * mcost`; in a mode that performs no probe it is 0.  No diagnostic
is written in any of these cases. -/
theorem C3_automatic_batch_threshold (build : Build) (args : Arguments) (b : Boundary)
    (hauto : args.batchSize = 0) :
    (args.mode = "cuda" → build.HAVE_CUDA = true → 1 ≤ b.difficulty →
      b.difficulty ≤ INT_MAX →
      cudaQuotient b.mem.freeMemory b.difficulty < 2147483648 →
      ∃ d evs, iteration build args b = some (d, evs) ∧
        evs.any Event.isDiagnostic = false ∧ 0 ≤ d.batchSize ∧
        (1 ≤ d.batchSize ↔
          (b.difficulty : ℚ) * (101 / 100) * 1024 ≤ (b.mem.freeMemory : ℚ))) ∧
    (args.mode = "opencl" → build.HAVE_OPENCL = true → 1 ≤ b.difficulty →
      b.difficulty ≤ INT_MAX →
      ⌊(b.mem.memorySize : ℚ) / ((b.difficulty : ℚ) * (101 / 100)) / 1024⌋ ≤ INT_MAX →
      ∃ d evs, iteration build args b = some (d, evs) ∧
        evs.any Event.isDiagnostic = false ∧ 0 ≤ d.batchSize ∧
        (1 ≤ d.batchSize ↔ 1035 * b.difficulty ≤ (b.mem.memorySize : ℤ))) ∧
    (args.mode ≠ "opencl" → args.mode ≠ "cuda" →
      ∃ d evs, iteration build args b = some (d, evs) ∧
        evs.any Event.isDiagnostic = false ∧ evs.any Event.isProbe = false ∧
        d.batchSize = 0) := by
  refine ⟨?_, ?_, ?_⟩
  · intro hmode hbuild hm hint hfit
    obtain ⟨m, hmeq⟩ := Int.eq_ofNat_of_zero_le (by omega : 0 ≤ b.difficulty)
    have hm1 : 1 ≤ m := by omega
    have hm2 : m ≤ 2147483647 := by unfold INT_MAX at hint; omega
    rw [hmeq] at hfit
    have hc := cudaBatchSize_of_lt b.mem.freeMemory m hm1 hm2 hfit
    rw [← hmeq] at hc
    refine ⟨_, _, iteration_cuda build args b _ hbuild hmode hauto hc, by
      simp [Event.isDiagnostic], ?_, ?_⟩
    · simp only [makeDirector]
      rw [hmeq]
      exact Int.floor_nonneg.mpr (cudaQuotient_nonneg _ m hm1 (by omega))
    have hq : ((b.difficulty : ℚ) * (101 / 100) * 1024 ≤ (b.mem.freeMemory : ℚ))
        ↔ 103424 * m ≤ b.mem.freeMemory * 100 := by
      rw [hmeq]
      constructor
      · intro h
        have h2 : ((103424 * m : ℕ) : ℚ) ≤ ((b.mem.freeMemory * 100 : ℕ) : ℚ) := by
          push_cast at h ⊢; linarith
        exact_mod_cast h2
      · intro h
        have h2 : ((103424 * m : ℕ) : ℚ) ≤ ((b.mem.freeMemory * 100 : ℕ) : ℚ) := by
          exact_mod_cast h
        push_cast at h2 ⊢; linarith
    simp only [makeDirector]
    rw [hq, hmeq]
    exact one_le_floor_cudaQuotient_iff b.mem.freeMemory m hm1 hm2
  · intro hmode hbuild hm hint hfit
    obtain ⟨m, hmeq⟩ := Int.eq_ofNat_of_zero_le (by omega : 0 ≤ b.difficulty)
    have hm1 : 1 ≤ m := by omega
    have hm2 : m ≤ 2147483647 := by unfold INT_MAX at hint; omega
    rw [hmeq, spec_floor_eq _ m hm1] at hfit
    have hfitc : b.mem.memorySize * 100 / (103424 * m) ≤ 2147483647 := by
      unfold INT_MAX at hfit; exact_mod_cast hfit
    obtain ⟨hlo, _⟩ := opencl_div_bounds b.mem.memorySize m hm1
    have ho := openclBatchSize_eq_div b.mem.memorySize m hm1 hm2 (by omega) (by omega)
    rw [← hmeq] at ho
    refine ⟨_, _, iteration_opencl build args b _ hbuild hmode hauto ho, by
      simp [Event.isDiagnostic], by simp only [makeDirector]; positivity, ?_⟩
    simp only [makeDirector]
    rw [hmeq]
    have hk : 1035 ≤ b.mem.memorySize / m ↔ 1035 * m ≤ b.mem.memorySize := by
      rw [Nat.le_div_iff_mul_le (by omega)]
    constructor
    · intro h
      have h1 : 1 ≤ b.mem.memorySize / m * 100 / 103424 := by exact_mod_cast h
      have h2 : 1035 * m ≤ b.mem.memorySize := hk.mp (by omega)
      exact_mod_cast h2
    · intro h
      have h2 : 1035 * m ≤ b.mem.memorySize := by exact_mod_cast h
      have h3 := hk.mpr h2
      have h1 : 1 ≤ b.mem.memorySize / m * 100 / 103424 := by omega
      exact_mod_cast h1
  · intro hopencl hcuda
    exact ⟨_, _, iteration_other build args b hopencl hcuda hauto, by
      simp [Event.isDiagnostic], by simp [Event.isProbe], rfl⟩

/-- C3 amended, in `cpu` mode and on the CUDA path with 8000000000 free bytes. -/
theorem C3_automatic_batch_threshold_witness :
    (∃ d evs, iteration ⟨true, true⟩ { mode := "cpu" }
        ⟨true, 1727, 1727, ⟨8000000000, 8000000000, 8000000000⟩⟩ = some (d, evs) ∧
        evs.any Event.isDiagnostic = false ∧ evs.any Event.isProbe = false ∧
        d.batchSize = 0) ∧
    (∃ d evs, iteration ⟨true, true⟩ { mode := "cuda" }
        ⟨true, 1727, 1727, ⟨8000000000, 8000000000, 8000000000⟩⟩ = some (d, evs) ∧
        evs.any Event.isDiagnostic = false ∧ 0 ≤ d.batchSize ∧
        (1 ≤ d.batchSize ↔
          ((1727 : ℤ) : ℚ) * (101 / 100) * 1024 ≤ ((8000000000 : ℕ) : ℚ))) :=
  ⟨(C3_automatic_batch_threshold ⟨true, true⟩ { mode := "cpu" }
      ⟨true, 1727, 1727, ⟨8000000000, 8000000000, 8000000000⟩⟩ rfl).2.2
      (by decide) (by decide),
   (C3_automatic_batch_threshold ⟨true, true⟩ { mode := "cuda" }
      ⟨true, 1727, 1727, ⟨8000000000, 8000000000, 8000000000⟩⟩ rfl).1
      rfl rfl (by decide) (by decide)
      (cudaQuotient_lt_of_fit 8000000000 1727 (by norm_num) (by decide) (by decide)
        (by decide))⟩

/-- C4, as stated, fails: the explicit batch size `4294967296` reaches the director
as 0, not as `4294967296`. -/
theorem C4_explicit_batch_not_verbatim :
    (iteration ⟨true, true⟩ { batchSize := 4294967296 }
        ⟨true, 1727, 1727, ⟨8000000000, 8000000000, 8000000000⟩⟩).map
        (fun r => r.1.batchSize) = some 0 ∧
      (iteration ⟨true, true⟩ { batchSize := 4294967296 }
        ⟨true, 1727, 1727, ⟨8000000000, 8000000000, 8000000000⟩⟩).map
        (fun r => r.1.batchSize) ≠ some 4294967296 := by
  rw [iteration_explicit ⟨true, true⟩ { batchSize := 4294967296 } _ (by decide)]
  constructor <;> decide

/-- C4, amended: for every explicit non-zero batch size, every mode and every
difficulty, no memory probe is consulted (the iteration has no probe event and does
not depend on the device memory), and the `batchSize` handed to the director is the
requested one reduced modulo `2^32` into the range of `int`; it equals the requested
value whenever that is at most `INT_MAX`. -/
theorem C4_explicit_batch_is_narrowed (build : Build) (args : Arguments) (b : Boundary)
    (hb : args.batchSize ≠ 0) :
    ∃ d evs, iteration build args b = some (d, evs) ∧
      evs.any Event.isProbe = false ∧
      d.batchSize = toInt32 args.batchSize ∧
      ((args.batchSize : ℤ) ≤ INT_MAX → d.batchSize = args.batchSize) ∧
      ∀ mem : DeviceMemory,
        iteration build args { b with mem := mem } = iteration build args b := by
  refine ⟨_, _, iteration_explicit build args b hb, ?_, rfl, ?_, ?_⟩
  · simp [dispatch_no_probe, Event.isProbe]
  · intro h
    simp only [makeDirector]
    exact toInt32_of_le h
  · intro mem
    rw [iteration_explicit build args b hb, iteration_explicit build args _ hb]

/-- C4 amended, at the explicit batch size 16 in `cuda` mode. -/
theorem C4_explicit_batch_is_narrowed_witness :
    ∃ d evs, iteration ⟨true, true⟩ { batchSize := 16 }
        ⟨true, 1727, 1727, ⟨8000000000, 8000000000, 8000000000⟩⟩ = some (d, evs) ∧
      evs.any Event.isProbe = false ∧
      d.batchSize = toInt32 ((16 : ℕ) : ℤ) ∧
      ((((16 : ℕ) : ℤ)) ≤ INT_MAX → d.batchSize = ((16 : ℕ) : ℤ)) ∧
      ∀ mem : DeviceMemory,
        iteration ⟨true, true⟩ { batchSize := 16 } ⟨true, 1727, 1727, mem⟩
          = iteration ⟨true, true⟩ { batchSize := 16 }
              ⟨true, 1727, 1727, ⟨8000000000, 8000000000, 8000000000⟩⟩ :=
  C4_explicit_batch_is_narrowed ⟨true, true⟩ { batchSize := 16 }
    ⟨true, 1727, 1727, ⟨8000000000, 8000000000, 8000000000⟩⟩ (by decide)

/-! ## C5, C6: the difficulty poller -/

theorem updateDifficulty_fst (difficulty new_difficulty : ℤ) :
    (updateDifficulty difficulty new_difficulty).1 = new_difficulty := by
  unfold updateDifficulty
  split_ifs with h
  · rfl
  · simpa using h

theorem readDifficultyFile_fst (difficulty : ℤ) (f : FileRead) :
    (readDifficultyFile difficulty f).1 = (f.value?).getD difficulty := by
  cases f <;> simp [readDifficultyFile, FileRead.value?, updateDifficulty_fst]

theorem read_difficulty_periodically_append (xs ys : List FileRead) (difficulty : ℤ) :
    (read_difficulty_periodically (xs ++ ys) difficulty).1
      = (read_difficulty_periodically ys (read_difficulty_periodically xs difficulty).1).1 := by
  induction xs generalizing difficulty with
  | nil => rfl
  | cons f xs ih =>
    show (read_difficulty_periodically (xs ++ ys) (readDifficultyFile difficulty f).1).1 = _
    rw [ih]
    rfl

theorem read_difficulty_periodically_single (f : FileRead) (difficulty : ℤ) :
    (read_difficulty_periodically [f] difficulty).1 = (f.value?).getD difficulty := by
  simp [read_difficulty_periodically, readDifficultyFile_fst]

/-- C5: for every initial difficulty and every finite sequence of poll ticks, the
stored difficulty after the last tick is the last successfully parsed integer, or the
initial value if no tick succeeded; a failed tick (file not open, or no integer
parsed) leaves the stored difficulty unchanged and writes nothing to it. -/
theorem C5_poller_keeps_last_parsed (initial : ℤ) (ticks : List FileRead) :
    (read_difficulty_periodically ticks initial).1 = lastParsed ticks initial ∧
      (read_difficulty_periodically (ticks ++ [FileRead.notOpen]) initial).1
        = (read_difficulty_periodically ticks initial).1 ∧
      (read_difficulty_periodically (ticks ++ [FileRead.noParse]) initial).1
        = (read_difficulty_periodically ticks initial).1 ∧
      (∀ d : ℤ, readDifficultyFile d FileRead.notOpen = (d, [Event.cerrFileNotRecognized])) ∧
      (∀ d : ℤ, readDifficultyFile d FileRead.noParse = (d, [])) := by
  refine ⟨?_, ?_, ?_, fun _ => rfl, fun _ => rfl⟩
  · induction ticks using List.reverseRecOn with
    | nil => rfl
    | append_singleton xs f ih =>
      rw [read_difficulty_periodically_append, read_difficulty_periodically_single, ih]
      cases f <;> simp [lastParsed, FileRead.value?, List.filterMap_append]
  · rw [read_difficulty_periodically_append, read_difficulty_periodically_single]
    rfl
  · rw [read_difficulty_periodically_append, read_difficulty_periodically_single]
    rfl

/-- C6: the difficulty update emits the change notification exactly when the new
value differs from the stored one, and writes `difficulty` exactly then; applying the
update with the same value a second time emits nothing and leaves the stored value
unchanged, so two polls of the same integer log at most one update, and exactly one
for 1500 then 1500 from the initial difficulty. -/
theorem C6_update_notifies_once (difficulty v : ℤ) :
    ((updateDifficulty difficulty v).2.any Event.isNotification = true ↔ v ≠ difficulty) ∧
      ((updateDifficulty difficulty v).2.any Event.isDifficultyWrite = true
        ↔ v ≠ difficulty) ∧
      updateDifficulty (updateDifficulty difficulty v).1 v
        = ((updateDifficulty difficulty v).1, []) ∧
      (read_difficulty_periodically [FileRead.parsed v, FileRead.parsed v] difficulty).2.countP
        Event.isNotification ≤ 1 ∧
      (read_difficulty_periodically [FileRead.parsed 1500, FileRead.parsed 1500]
        initialDifficulty).2.countP Event.isNotification = 1 := by
  have h2 : updateDifficulty (updateDifficulty difficulty v).1 v
      = ((updateDifficulty difficulty v).1, []) := by
    rw [updateDifficulty_fst]
    simp [updateDifficulty]
  refine ⟨?_, ?_, h2, ?_, by decide⟩
  · unfold updateDifficulty
    split_ifs with h
    · simp [Event.isNotification]; exact fun e => h e.symm
    · simp at h; simp [h]
  · unfold updateDifficulty
    split_ifs with h
    · simp [Event.isDifficultyWrite]; exact fun e => h e.symm
    · simp at h; simp [h]
  · simp only [read_difficulty_periodically, readDifficultyFile, h2, List.append_nil]
    unfold updateDifficulty
    split_ifs <;> simp [Event.isNotification]

/-! ## C7: the benchmark loop -/

/-- The loop from index `i` runs the bodies of a block of consecutive indices, all
observed running, and stops at the ceiling or at an index observed not running. -/
theorem benchmarkLoopFrom_spec {α : Type} (running : ℕ → Bool) (body : ℕ → α) (k : ℕ) :
    ∀ i : ℕ, maxIterations - i = k →
      ∃ n : ℕ, benchmarkLoopFrom running body i = (List.range' i n).map body ∧
        (i ≤ maxIterations → i + n ≤ maxIterations) ∧
        (∀ j, i ≤ j → j < i + n → running j = true) ∧
        (i + n < maxIterations → running (i + n) = false) := by
  induction k with
  | zero =>
    intro i hi
    refine ⟨0, ?_, fun h => h, fun j h1 h2 => absurd h2 (by omega), fun h => by omega⟩
    rw [benchmarkLoopFrom, if_neg (by omega)]
    rfl
  | succ k ih =>
    intro i hi
    have hlt : i < maxIterations := by omega
    cases hr : running i with
    | false =>
      refine ⟨0, ?_, fun h => h, fun j h1 h2 => absurd h2 (by omega), fun _ => hr⟩
      rw [benchmarkLoopFrom, if_pos hlt]
      simp [hr]
    | true =>
      obtain ⟨n, hn, hle, hrun, hstop⟩ := ih (i + 1) (by omega)
      refine ⟨n + 1, ?_, fun _ => by omega, ?_, ?_⟩
      · rw [benchmarkLoopFrom, if_pos hlt]
        simp [hr, hn, List.range'_succ]
      · intro j h1 h2
        rcases Nat.eq_or_lt_of_le h1 with h | h
        · rw [← h]; exact hr
        · exact hrun j (by omega) (by omega)
      · intro h
        have := hstop (by omega)
        rwa [show i + (n + 1) = i + 1 + n by omega]

/-- C7: for every sequence of observations of the running flag at the iteration
boundaries, the benchmark loop runs exactly the iterations `0 .. n-1` where `n` is the
first boundary at which the flag is observed `false`, and never more than 200000: all
of them were observed running, the loop stops at 200000 or at a boundary observed not
running, `n` is the only count with these properties, and with the flag `true`
throughout exactly 200000 iterations are run. -/
theorem C7_loop_runs_until_flag_or_ceiling (build : Build) (args : Arguments)
    (obs : ℕ → Boundary) :
    (benchmarkLoop build args obs).length ≤ 200000 ∧
      benchmarkLoop build args obs
        = (List.range (benchmarkLoop build args obs).length).map
            (fun i => iteration build args (obs i)) ∧
      (∀ j, j < (benchmarkLoop build args obs).length → (obs j).running = true) ∧
      ((benchmarkLoop build args obs).length < 200000 →
        (obs (benchmarkLoop build args obs).length).running = false) ∧
      (∀ k, k ≤ 200000 → (∀ j, j < k → (obs j).running = true) →
        (k < 200000 → (obs k).running = false) →
        (benchmarkLoop build args obs).length = k) ∧
      ((∀ j, (obs j).running = true) → (benchmarkLoop build args obs).length = 200000) := by
  obtain ⟨n, hn, hle, hrun, hstop⟩ :=
    benchmarkLoopFrom_spec (fun i => (obs i).running)
      (fun i => iteration build args (obs i)) maxIterations 0 rfl
  have hmax : maxIterations = 200000 := rfl
  have hlen : (benchmarkLoop build args obs).length = n := by
    unfold benchmarkLoop
    rw [hn]
    simp
  have hle2 : n ≤ 200000 := by have := hle (Nat.zero_le _); omega
  have hrun2 : ∀ j, j < n → (obs j).running = true :=
    fun j hj => hrun j (Nat.zero_le _) (by omega)
  have hstop2 : n < 200000 → (obs n).running = false := by
    intro h
    have := hstop (by omega)
    simpa using this
  have huniq : ∀ k, k ≤ 200000 → (∀ j, j < k → (obs j).running = true) →
      (k < 200000 → (obs k).running = false) → n = k := by
    intro k hk hk1 hk2
    rcases Nat.lt_trichotomy n k with h | h | h
    · have h1 := hstop2 (by omega)
      have h2 := hk1 n h
      rw [h1] at h2
      exact absurd h2 (by decide)
    · exact h
    · have h1 := hk2 (by omega)
      have h2 := hrun2 k h
      rw [h1] at h2
      exact absurd h2 (by decide)
  rw [hlen]
  refine ⟨hle2, ?_, hrun2, hstop2, huniq, ?_⟩
  · unfold benchmarkLoop
    rw [hn, List.range_eq_range']
  · intro hall
    by_contra hne
    have h1 := hstop2 (by omega)
    rw [hall n] at h1
    exact absurd h1 (by decide)

/-- C7 at a flag that is observed `true` at boundaries 0, 1, 2 and `false` from
boundary 3 on: three iterations are run. -/
theorem C7_loop_runs_until_flag_or_ceiling_witness :
    (benchmarkLoop ⟨true, true⟩ {}
      (fun i => ⟨decide (i < 3), 1727, 1727, ⟨8000000000, 8000000000, 8000000000⟩⟩)).length
      = 3 :=
  (C7_loop_runs_until_flag_or_ceiling ⟨true, true⟩ {}
    (fun i => ⟨decide (i < 3), 1727, 1727, ⟨8000000000, 8000000000, 8000000000⟩⟩)).2.2.2.2.1
    3 (by decide) (fun j hj => by simpa using hj) (fun _ => by simp)

/-! ## C8, C9: the interrupt handler and the difficulty floor -/

theorem toInt32_of_mem_range {x : ℤ} (h1 : INT_MIN ≤ x) (h2 : x ≤ INT_MAX) :
    toInt32 x = x := by
  unfold toInt32
  unfold INT_MIN at h1
  unfold INT_MAX at h2
  omega

theorem run_append (g : Globals) (xs ys : List Step) :
    run g (xs ++ ys) = run (run g xs) ys := by
  simp [run, List.foldl_append]

theorem run_cons (g : Globals) (s : Step) (steps : List Step) :
    run g (s :: steps) = run (step g s) steps := rfl

/-- After steps none of which parses an integer, the difficulty is the one before
them minus the number of interrupts among them, as long as that is an `int`. -/
theorem run_without_parse (steps : List Step) :
    ∀ g : Globals, (∀ s ∈ steps, s.isParsed = false) → g.difficulty ≤ INT_MAX →
      INT_MIN ≤ g.difficulty - interrupts steps →
      (run g steps).difficulty = g.difficulty - interrupts steps := by
  induction steps with
  | nil => intro g _ _ _; simp [run, interrupts]
  | cons s steps ih =>
    intro g hs hmax hmin
    have hrest : ∀ t ∈ steps, t.isParsed = false :=
      fun t ht => hs t (List.mem_cons_of_mem _ ht)
    have hhead := hs s (List.mem_cons_self _ _)
    rw [run_cons]
    cases s with
    | poll f =>
      have hcount : interrupts (Step.poll f :: steps) = interrupts steps := by
        simp [interrupts, Step.isInterrupt]
      have hstep : (step g (Step.poll f)).difficulty = g.difficulty := by
        cases f with
        | notOpen => rfl
        | noParse => rfl
        | parsed v => simp [Step.isParsed] at hhead
      rw [hcount] at hmin ⊢
      rw [ih _ hrest (by rw [hstep]; exact hmax) (by rw [hstep]; exact hmin), hstep]
    | interrupt signum =>
      have hcount : interrupts (Step.interrupt signum :: steps) = interrupts steps + 1 := by
        simp [interrupts, Step.isInterrupt]
      rw [hcount] at hmin ⊢
      have hstep : (step g (Step.interrupt signum)).difficulty = g.difficulty - 1 := by
        show toInt32 (g.difficulty - 1) = g.difficulty - 1
        apply toInt32_of_mem_range <;> omega
      rw [ih _ hrest (by rw [hstep]; omega) (by rw [hstep]; push_cast at hmin; omega), hstep]
      push_cast
      omega

/-- C8, as stated, fails: from the initial difficulty 1727, a poll that parses `0`
stores 0, and a poll that parses `1` followed by one interrupt leaves 0. -/
theorem C8_difficulty_can_drop_below_one :
    (run initialGlobals [Step.poll (FileRead.parsed 0)]).difficulty = 0 ∧
      (run initialGlobals [Step.poll (FileRead.parsed 1), Step.interrupt 2]).difficulty = 0 ∧
      ¬ (1 ≤ (run initialGlobals [Step.poll (FileRead.parsed 1), Step.interrupt 2]).difficulty) := by
  decide

/-- C8, amended: no write path clamps.  From the initial difficulty 1727, after any
finite interleaving of poll ticks and interrupt deliveries the stored difficulty is the
last successfully parsed integer (1727 when there is none) minus the number of
interrupts delivered after it, as long as that difference is an `int`; so it is
`>= 1` exactly when that integer is greater than the number of later interrupts. -/
theorem C8_difficulty_is_last_parsed_minus_interrupts (later : List Step)
    (hlater : ∀ s ∈ later, s.isParsed = false) :
    (INT_MIN ≤ initialDifficulty - interrupts later →
      (run initialGlobals later).difficulty = initialDifficulty - interrupts later ∧
      (1 ≤ (run initialGlobals later).difficulty ↔ (interrupts later : ℤ) < initialDifficulty)) ∧
    (∀ (earlier : List Step) (v : ℤ), v ≤ INT_MAX → INT_MIN ≤ v - interrupts later →
      (run initialGlobals (earlier ++ Step.poll (FileRead.parsed v) :: later)).difficulty
        = v - interrupts later ∧
      (1 ≤ (run initialGlobals (earlier ++ Step.poll (FileRead.parsed v) :: later)).difficulty
        ↔ (interrupts later : ℤ) < v)) := by
  constructor
  · intro hmin
    have h : (run initialGlobals later).difficulty = initialDifficulty - interrupts later :=
      run_without_parse later initialGlobals hlater (by decide) hmin
    refine ⟨h, ?_⟩
    rw [h]
    omega
  · intro earlier v hmax hmin
    have hv : (step (run initialGlobals earlier) (Step.poll (FileRead.parsed v))).difficulty
        = v := updateDifficulty_fst _ v
    have h := run_without_parse later
      (step (run initialGlobals earlier) (Step.poll (FileRead.parsed v))) hlater
      (by rw [hv]; exact hmax) (by rw [hv]; exact hmin)
    rw [hv] at h
    rw [run_append, run_cons, h]
    exact ⟨rfl, by omega⟩

/-- C8 amended, at one interrupt after the initial state and at two interrupts after a
poll that parses `2`. -/
theorem C8_difficulty_is_last_parsed_minus_interrupts_witness :
    ((run initialGlobals [Step.interrupt 2]).difficulty
        = initialDifficulty - interrupts [Step.interrupt 2] ∧
      (1 ≤ (run initialGlobals [Step.interrupt 2]).difficulty
        ↔ (interrupts [Step.interrupt 2] : ℤ) < initialDifficulty)) ∧
    ((run initialGlobals ([Step.poll FileRead.noParse] ++
        Step.poll (FileRead.parsed 2) :: [Step.interrupt 2, Step.interrupt 2])).difficulty
        = 2 - interrupts [Step.interrupt 2, Step.interrupt 2] ∧
      (1 ≤ (run initialGlobals ([Step.poll FileRead.noParse] ++
        Step.poll (FileRead.parsed 2) :: [Step.interrupt 2, Step.interrupt 2])).difficulty
        ↔ (interrupts [Step.interrupt 2, Step.interrupt 2] : ℤ) < 2)) :=
  ⟨(C8_difficulty_is_last_parsed_minus_interrupts [Step.interrupt 2] (by decide)).1
      (by decide),
   (C8_difficulty_is_last_parsed_minus_interrupts [Step.interrupt 2, Step.interrupt 2]
      (by decide)).2 [Step.poll FileRead.noParse] 2 (by decide) (by decide)⟩

/-- C9, as stated, fails: from the initial state one delivery of the interrupt leaves
the difficulty 1726 and a second delivery leaves 1725. -/
theorem C9_second_interrupt_decrements_again :
    (signalHandler 2 initialGlobals).1 = ⟨false, 1726⟩ ∧
      (signalHandler 2 (signalHandler 2 initialGlobals).1).1 = ⟨false, 1725⟩ ∧
      (signalHandler 2 (signalHandler 2 initialGlobals).1).1
        ≠ (signalHandler 2 initialGlobals).1 := by
  decide

/-- C9, amended: the handler is idempotent on the running flag only.  For every
state, after one delivery and after two deliveries `running` is `false`; the
difficulty after the second delivery differs from the difficulty after the first, and
for a difficulty `d` with `INT_MIN + 2 <= d <= INT_MAX` it is `d - 1` after one
delivery and `d - 2` after two. -/
theorem C9_handler_idempotent_on_flag_only (signum : ℤ) (g : Globals) :
    (signalHandler signum g).1.running = false ∧
      (signalHandler signum (signalHandler signum g).1).1.running
        = (signalHandler signum g).1.running ∧
      (signalHandler signum (signalHandler signum g).1).1.difficulty
        ≠ (signalHandler signum g).1.difficulty ∧
      (INT_MIN + 2 ≤ g.difficulty → g.difficulty ≤ INT_MAX →
        (signalHandler signum g).1.difficulty = g.difficulty - 1 ∧
        (signalHandler signum (signalHandler signum g).1).1.difficulty
          = g.difficulty - 2) := by
  refine ⟨rfl, rfl, ?_, ?_⟩
  · show toInt32 (toInt32 (g.difficulty - 1) - 1) ≠ toInt32 (g.difficulty - 1)
    unfold toInt32
    omega
  · intro h1 h2
    show toInt32 (g.difficulty - 1) = g.difficulty - 1 ∧
      toInt32 (toInt32 (g.difficulty - 1) - 1) = g.difficulty - 2
    unfold INT_MIN at h1
    unfold INT_MAX at h2
    unfold toInt32
    omega

/-- C9 amended, at the initial state. -/
theorem C9_handler_idempotent_on_flag_only_witness :
    (signalHandler 2 initialGlobals).1.difficulty = initialGlobals.difficulty - 1 ∧
      (signalHandler 2 (signalHandler 2 initialGlobals).1).1.difficulty
        = initialGlobals.difficulty - 2 :=
  (C9_handler_idempotent_on_flag_only 2 initialGlobals).2.2.2 (by decide) (by decide)

end XenGPUMiner
